import Mathlib

/-!
Verification development for the `collection` library
(`src/jsonCollection.js` and `src/mapCollection.js`).

The two classes are shallowly embedded as pure Lean functions over explicit
states:

* `jsonCollection` keeps its entries in a plain string-keyed JS object
  (`this.json`).  We model that object as an insertion-ordered association
  list `List (String × JsVal)`; key enumeration (`Object.keys`, `for..in`,
  `Object.entries`, `JSON.stringify`) follows the ECMAScript own-property
  order: canonical integer-index keys in ascending numeric order first, then
  the remaining string keys in insertion order.  Symbol keys are outside the
  model (no claim mentions them).
* `mapCollection extends Map` is modeled as an insertion-ordered association
  list `List (JsKey × JsVal)` with SameValueZero key comparison; objects,
  arrays and functions compare by identity, carried as a numeric id.

JS values in the model are the primitives (string, integer-valued number,
boolean, null, undefined); callbacks are modeled as pure Lean functions of
value and key (the source also passes the collection itself, but every claim
only concerns pure predicates).  `throw` is modeled with `Except`.
-/

namespace Collection

/-- The primitive JS values used as stored values in the model. -/
inductive JsVal where
  | str (s : String)
  | num (n : Int)
  | bool (b : Bool)
  | null
  | undef
deriving DecidableEq, Repr

/-- JS keys: primitives plus reference types (plain objects with integer
fields, arrays of integers, functions).  Reference types carry an identity
`id` (two distinct JS objects are distinct map keys even when structurally
equal).  Symbols are outside the model. -/
inductive JsKey where
  | str (s : String)
  | num (n : Int)
  | bool (b : Bool)
  | null
  | undef
  | obj (id : Nat) (fields : List (String × Int))
  | arr (id : Nat) (elems : List Int)
  | fn (id : Nat)
deriving DecidableEq, Repr, Inhabited

/-- Errors thrown by the library: `TypeError` for bad keys / bad concat
arguments, the path-validation error of `save`/`load`, and the
invalid-JSON error of `load`. -/
inductive JsError where
  | typeError
  | pathError
  | dataError
deriving DecidableEq, Repr

def lbraceC : Char := Char.ofNat 123
def rbraceC : Char := Char.ofNat 125
def dquoteC : Char := Char.ofNat 34
def bslashC : Char := Char.ofNat 92
def bsC : Char := Char.ofNat 8
def tabC : Char := Char.ofNat 9
def nlC : Char := Char.ofNat 10
def ffC : Char := Char.ofNat 12
def crC : Char := Char.ofNat 13

def lbraceS : String := String.mk [lbraceC]
def rbraceS : String := String.mk [rbraceC]

/-- `typeof k === "function"`. -/
def JsKey.isFn : JsKey → Bool
  | .fn _ => true
  | _ => false

/-- `util.inspect` of node, restricted to the key shapes of the model:
numbers, booleans and null print as themselves, plain objects as
`{ a: 1, b: 2 }`, arrays as `[ 1, 2 ]`, functions as
`[Function (anonymous)]`.  Strings are never inspected on the coercion
paths (they pass through), so their branch is irrelevant. -/
def JsKey.inspect : JsKey → String
  | .str s => s
  | .num n => toString n
  | .bool b => if b then "true" else "false"
  | .null => "null"
  | .undef => "undefined"
  | .obj _ [] => lbraceS ++ rbraceS
  | .obj _ fs =>
      lbraceS ++ " " ++
        String.intercalate ", " (fs.map (fun p => p.1 ++ ": " ++ toString p.2)) ++
        " " ++ rbraceS
  | .arr _ [] => "[]"
  | .arr _ es => "[ " ++ String.intercalate ", " (es.map toString) ++ " ]"
  | .fn _ => "[Function (anonymous)]"

/-- ECMAScript `ToString`, as used by `ToPropertyKey` when a raw key is fed
to `hasOwnProperty` or a property access: objects give
`[object Object]`, arrays give their comma-joined elements. -/
def JsKey.toStr : JsKey → String
  | .str s => s
  | .num n => toString n
  | .bool b => if b then "true" else "false"
  | .null => "null"
  | .undef => "undefined"
  | .obj _ _ => "[object Object]"
  | .arr _ es => String.intercalate "," (es.map toString)
  | .fn _ => "function"

/-- SameValueZero, the key comparison of `Map`: primitives compare
structurally, reference types by identity. -/
def JsKey.sameValueZero : JsKey → JsKey → Bool
  | .str a, .str b => a = b
  | .num a, .num b => a = b
  | .bool a, .bool b => a = b
  | .null, .null => true
  | .undef, .undef => true
  | .obj i _, .obj j _ => i = j
  | .arr i _, .arr j _ => i = j
  | .fn i, .fn j => i = j
  | _, _ => false

/-- JS truthiness of a key value (`!keys` in `first`/`last`). -/
def JsKey.falsy : JsKey → Bool
  | .str s => s = ""
  | .num n => n = 0
  | .bool b => b = false
  | .null => true
  | .undef => true
  | _ => false

/-! ### The JS-object backing store of `jsonCollection` -/

/-- State of a `jsonCollection`: its `this.json` object, as own string
properties in first-insertion order. -/
structure JsonCol where
  store : List (String × JsVal)
deriving DecidableEq, Repr

/-- `obj[k] = v` on a JS object: overwrite in place when the property
exists, else append a new own property. -/
def assignProp (l : List (String × JsVal)) (k : String) (v : JsVal) :
    List (String × JsVal) :=
  if l.any (fun p => p.1 = k) then
    l.map (fun p => if p.1 = k then (k, v) else p)
  else l ++ [(k, v)]

/-- `delete obj[k]`. -/
def deleteProp (l : List (String × JsVal)) (k : String) :
    List (String × JsVal) :=
  l.filter (fun p => ¬ p.1 = k)

/-- Reading own property `k` (`obj[k]`), `none` when absent. -/
def lookupProp (l : List (String × JsVal)) (k : String) : Option JsVal :=
  (l.find? (fun p => p.1 = k)).map (fun p => p.2)

/-- A nonnegative canonical integer-index string (`"0"`, `"7"`, `"42"`, no
leading zeros, below 2^53): such keys enumerate first, in numeric order. -/
def canonIndex? (s : String) : Option Nat :=
  match s.data with
  | [] => none
  | [c] => if c.isDigit then some (c.toNat - 48) else none
  | c :: cs =>
      if c.isDigit ∧ ¬ c = '0' ∧ cs.all Char.isDigit ∧
          ((c :: cs).foldl (fun a d => a * 10 + (d.toNat - 48)) 0) < 2 ^ 53 then
        some ((c :: cs).foldl (fun a d => a * 10 + (d.toNat - 48)) 0)
      else none

def idxLe (a b : String) : Bool :=
  ((canonIndex? a).getD 0) ≤ ((canonIndex? b).getD 0)

def insertIdx (x : String) : List String → List String
  | [] => [x]
  | y :: ys => if idxLe x y then x :: y :: ys else y :: insertIdx x ys

def sortIdxKeys : List String → List String
  | [] => []
  | x :: xs => insertIdx x (sortIdxKeys xs)

/-- `Object.keys(this.json)` / `for..in` enumeration order: canonical
integer-index keys ascending, then the rest in insertion order. -/
def jsonKeys (c : JsonCol) : List String :=
  let ks := c.store.map Prod.fst
  sortIdxKeys (ks.filter (fun s => (canonIndex? s).isSome)) ++
    ks.filter (fun s => (canonIndex? s).isNone)

/-- `get size()` — `Object.keys(this.json).length`. -/
def jsonSize (c : JsonCol) : Nat := c.store.length

/-- The `[Symbol.iterator]` of `jsonCollection`: pairs
`[key, this.json[key]]` in `for..in` order. -/
def jsonEntriesOrdered (c : JsonCol) : List (String × JsVal) :=
  (jsonKeys c).map (fun k => (k, (lookupProp c.store k).getD JsVal.undef))

/-- The storage key a non-function key is written under by `set`/`has`/
`delete`: strings pass unchanged, anything else goes through
`util.inspect` (an `undefined` key skips the inspect but is then
string-coerced to `"undefined"` by the property write itself). -/
def jsonStorageKey : JsKey → String
  | .str s => s
  | .undef => "undefined"
  | k => k.inspect

/-- `jsonCollection.set` (src/jsonCollection.js:58-64): throws on function
keys, else writes under the inspected key and returns the collection. -/
def jsonSet (c : JsonCol) (key : JsKey) (v : JsVal) : Except JsError JsonCol :=
  if key.isFn then .error .typeError
  else .ok ⟨assignProp c.store (jsonStorageKey key) v⟩

/-- `jsonCollection.get` (src/jsonCollection.js:73-79): throws on function
keys, computes the inspected key `k`, but tests presence with
`this.json.hasOwnProperty(key)` — the RAW key, string-coerced by
`ToPropertyKey` — and only then reads `this.json[k]`. -/
def jsonGet (c : JsonCol) (key : JsKey) : Except JsError JsVal :=
  if key.isFn then .error .typeError
  else
    let k := jsonStorageKey key
    if ¬ c.store.any (fun p => p.1 = key.toStr) then .ok .null
    else .ok ((lookupProp c.store k).getD .undef)

/-- `jsonCollection.get` restricted to a string key (always present path of
`first`/`last`/`equal`, never throws). -/
def jsonGetStr (c : JsonCol) (k : String) : JsVal :=
  if c.store.any (fun p => p.1 = k) then (lookupProp c.store k).getD .undef
  else .null

/-- `jsonCollection.has` (src/jsonCollection.js:459-466): false on the empty
collection (before any key check), false for `undefined`, throws for a
function, else membership of the inspected key in `this.keys`. -/
def jsonHas (c : JsonCol) (key : JsKey) : Except JsError Bool :=
  if jsonSize c = 0 then .ok false
  else if key = .undef then .ok false
  else if key.isFn then .error .typeError
  else .ok ((jsonKeys c).contains (jsonStorageKey key))

/-- `jsonCollection.has` with a string key (used by `equal`). -/
def jsonHasStr (c : JsonCol) (k : String) : Bool :=
  if jsonSize c = 0 then false else (jsonKeys c).contains k

/-- `jsonCollection.delete` (src/jsonCollection.js:666-673): `none` models
the `return null` taken for an `undefined` key; a function key throws;
otherwise the inspected property is removed and the collection returned. -/
def jsonDelete (c : JsonCol) (key : JsKey) :
    Except JsError (Option JsonCol) :=
  if key = .undef then .ok none
  else if key.isFn then .error .typeError
  else .ok (some ⟨deleteProp c.store (jsonStorageKey key)⟩)

/-! ### The native-map backing store of `mapCollection` -/

/-- State of a `mapCollection`: its entries in insertion order. -/
structure MapCol where
  entries : List (JsKey × JsVal)
deriving DecidableEq, Repr

/-- `Map.prototype.set`: replace the value of the SameValueZero-equal entry
in place (keeping the stored key and its position), else append. -/
def mapAssign (l : List (JsKey × JsVal)) (k : JsKey) (v : JsVal) :
    List (JsKey × JsVal) :=
  if l.any (fun p => p.1.sameValueZero k) then
    l.map (fun p => if p.1.sameValueZero k then (p.1, v) else p)
  else l ++ [(k, v)]

/-- `mapCollection.set` (src/mapCollection.js:68-71): `super.set` then
`return this`.  No key is rejected — there is no function-key check. -/
def mapSet (m : MapCol) (k : JsKey) (v : JsVal) : MapCol :=
  ⟨mapAssign m.entries k v⟩

/-- The value stored under a SameValueZero-equal key, `none` when absent. -/
def mapLookup (m : MapCol) (k : JsKey) : Option JsVal :=
  (m.entries.find? (fun p => p.1.sameValueZero k)).map (fun p => p.2)

/-- `mapCollection.get` (src/mapCollection.js:80-82): plain
`Map.prototype.get`, which yields `undefined` when the key is absent. -/
def mapGet (m : MapCol) (k : JsKey) : JsVal :=
  (mapLookup m k).getD JsVal.undef

/-- `mapCollection.has` (src/mapCollection.js:466-469): false on the empty
collection, else `Map.prototype.has`. -/
def mapHas (m : MapCol) (k : JsKey) : Bool :=
  if m.entries.length = 0 then false
  else m.entries.any (fun p => p.1.sameValueZero k)

/-- `mapCollection.delete` (src/mapCollection.js:669-672): `super.delete`
then `return this`. -/
def mapDelete (m : MapCol) (k : JsKey) : MapCol :=
  ⟨m.entries.filter (fun p => ¬ p.1.sameValueZero k)⟩

def mapSize (m : MapCol) : Nat := m.entries.length

/-- `new Map(pairs)` — each pair fed to `set` in order. -/
def mapOfPairs (l : List (JsKey × JsVal)) : MapCol :=
  ⟨l.foldl (fun acc p => mapAssign acc p.1 p.2) []⟩

/-- The generic-iterable branch of the `mapCollection` constructor
(src/mapCollection.js:54-57), taken for a `Map`/`mapCollection` source:
every entry whose key is `null` or `undefined` is silently skipped
before the pairs reach `super(entries)`. -/
def mapFromIterable (src : List (JsKey × JsVal)) : MapCol :=
  mapOfPairs (src.filter (fun p => ¬ p.1 = JsKey.null ∧ ¬ p.1 = JsKey.undef))

/-- `mapCollection.clone` (src/mapCollection.js:793-796):
`this.create(this)`, i.e. the constructor run on the collection itself,
which is the generic-iterable branch above. -/
def mapClone (m : MapCol) : MapCol :=
  mapFromIterable m.entries

/-! ### firstKey / lastKey / first / last -/

/-- The four-way result of the positional accessors: a single key or value,
an array of them, `null`, or `undefined`. -/
inductive Res (α : Type) where
  | one (a : α)
  | many (xs : List α)
  | nullR
  | undefR
deriving DecidableEq, Repr

/-- `index > this.size` with `index` possibly `undefined`
(`undefined > n` is false). -/
def idxGt (index : Option Int) (size : Nat) : Bool :=
  match index with
  | none => false
  | some i => i > (size : Int)

/-- `!index || index < 2`: true for a missing argument, `0`, `1` and
negative indices. -/
def idxSmall (index : Option Int) : Bool :=
  match index with
  | none => true
  | some i => i < 2

/-- `jsonCollection.firstKey` (src/jsonCollection.js:477-485). -/
def jsonFirstKey (c : JsonCol) (index : Option Int) : Res String :=
  if jsonSize c = 0 then .nullR
  else if idxGt index (jsonSize c) then .undefR
  else if idxSmall index then .one ((jsonKeys c).headD "")
  else .many ((jsonKeys c).take (index.getD 0).toNat)

/-- `jsonCollection.lastKey` (src/jsonCollection.js:496-505): same, over
`this.reverseKeys()`. -/
def jsonLastKey (c : JsonCol) (index : Option Int) : Res String :=
  if jsonSize c = 0 then .nullR
  else if idxGt index (jsonSize c) then .undefR
  else if idxSmall index then .one ((jsonKeys c).reverse.headD "")
  else .many ((jsonKeys c).reverse.take (index.getD 0).toNat)

/-- `jsonCollection.first` (src/jsonCollection.js:592-604): takes
`firstKey(index)`; `if (!keys) return null` collapses BOTH the `null` and
the `undefined` outcome (and a falsy single key such as `""`) to `null`;
otherwise a single key is looked up with `get`, an array key-wise. -/
def jsonFirst (c : JsonCol) (index : Option Int) : Res JsVal :=
  match jsonFirstKey c index with
  | .nullR => .nullR
  | .undefR => .nullR
  | .one k => if k = "" then .nullR else .one (jsonGetStr c k)
  | .many ks => .many (ks.map (jsonGetStr c))

/-- `jsonCollection.last` (src/jsonCollection.js:612-624). -/
def jsonLast (c : JsonCol) (index : Option Int) : Res JsVal :=
  match jsonLastKey c index with
  | .nullR => .nullR
  | .undefR => .nullR
  | .one k => if k = "" then .nullR else .one (jsonGetStr c k)
  | .many ks => .many (ks.map (jsonGetStr c))

/-- `mapCollection.firstKey` (src/mapCollection.js:480-488). -/
def mapFirstKey (m : MapCol) (index : Option Int) : Res JsKey :=
  if mapSize m = 0 then .nullR
  else if idxGt index (mapSize m) then .undefR
  else if idxSmall index then .one ((m.entries.map Prod.fst).headD .undef)
  else .many ((m.entries.map Prod.fst).take (index.getD 0).toNat)

/-- `mapCollection.lastKey` (src/mapCollection.js:499-508). -/
def mapLastKey (m : MapCol) (index : Option Int) : Res JsKey :=
  if mapSize m = 0 then .nullR
  else if idxGt index (mapSize m) then .undefR
  else if idxSmall index then .one ((m.entries.map Prod.fst).reverse.headD .undef)
  else .many ((m.entries.map Prod.fst).reverse.take (index.getD 0).toNat)

/-- `mapCollection.first` (src/mapCollection.js:595-607): like the json
variant, with JS falsiness of the single key (`0`, `false`, `""`, `null`,
`undefined` all collapse to `null`). -/
def mapFirst (m : MapCol) (index : Option Int) : Res JsVal :=
  match mapFirstKey m index with
  | .nullR => .nullR
  | .undefR => .nullR
  | .one k => if k.falsy then .nullR else .one (mapGet m k)
  | .many ks => .many (ks.map (mapGet m))

/-- `mapCollection.last` (src/mapCollection.js:615-627). -/
def mapLast (m : MapCol) (index : Option Int) : Res JsVal :=
  match mapLastKey m index with
  | .nullR => .nullR
  | .undefR => .nullR
  | .one k => if k.falsy then .nullR else .one (mapGet m k)
  | .many ks => .many (ks.map (mapGet m))

/-! ### randomKey

`Math.random()` is modeled by a rational draw `r` with `0 ≤ r < 1`;
`Math.floor(Math.random() * x)` becomes `⌊r * x⌋`.  The arguments
`startIndex`/`endIndex` are optional numbers.  The source compares
`typeof startIndex !== "Number"` and `typeof endIndex !== "Number "`;
`typeof` yields the lowercase `"number"`, so we model the comparison
literally against those two literals. -/

/-- `typeof` of an optional numeric argument. -/
def typeofOptNum : Option Int → String
  | none => "undefined"
  | some _ => "number"

/-- JS array indexing `arr[i]`: `undefined` out of range. -/
def jsArrGet {α : Type} [Inhabited α] (arr : List α) (i : Int) : Res α :=
  if 0 ≤ i ∧ i.toNat < arr.length then .one (arr.getD i.toNat default)
  else .undefR

/-- The common body of `randomKey` (src/jsonCollection.js:541-553 and
src/mapCollection.js:544-556), over the already-computed key array. -/
def randomKeyAux {α : Type} [Inhabited α] (arr : List α)
    (startIndex endIndex : Option Int) (r : ℚ) : Res α :=
  if arr.length = 0 then .many []
  else if ¬ typeofOptNum startIndex = "Number" ∨
      ¬ typeofOptNum endIndex = "Number " then
    jsArrGet arr ⌊r * (arr.length : ℚ)⌋
  else
    match startIndex, endIndex with
    | some s, some e =>
        if s ≥ (arr.length : Int) ∨ e ≥ (arr.length : Int) then .many []
        else jsArrGet arr (⌊r * (s : ℚ)⌋ + e)
    | _, _ => .many []

/-- `jsonCollection.randomKey`. -/
def jsonRandomKey (c : JsonCol) (startIndex endIndex : Option Int)
    (r : ℚ) : Res String :=
  if jsonSize c = 0 then .nullR
  else randomKeyAux (jsonKeys c) startIndex endIndex r

/-- `mapCollection.randomKey`. -/
def mapRandomKey (m : MapCol) (startIndex endIndex : Option Int)
    (r : ℚ) : Res JsKey :=
  if mapSize m = 0 then .nullR
  else randomKeyAux (m.entries.map Prod.fst) startIndex endIndex r

/-! ### filter -/

/-- What `filter` returns: the receiver object itself (`return this`, so the
result aliases the original collection), or a freshly created one. -/
inductive FilterRes (σ : Type) where
  | self
  | fresh (c : σ)
deriving DecidableEq, Repr

/-- `jsonCollection.filter` (src/jsonCollection.js:150-158): an empty
collection short-circuits to `return this`; otherwise a fresh collection
receives the entries passing the callback. -/
def jsonFilter (c : JsonCol) (fn : JsVal → String → Bool) :
    FilterRes JsonCol :=
  if jsonSize c = 0 then .self
  else .fresh ⟨(jsonEntriesOrdered c).foldl
    (fun acc p => if fn p.2 p.1 then assignProp acc p.1 p.2 else acc) []⟩

/-- `mapCollection.filter` (src/mapCollection.js:153-161). -/
def mapFilter (m : MapCol) (fn : JsVal → JsKey → Bool) :
    FilterRes MapCol :=
  if mapSize m = 0 then .self
  else .fresh ⟨m.entries.foldl
    (fun acc p => if fn p.2 p.1 then mapAssign acc p.1 p.2 else acc) []⟩

/-! ### sweep and clear -/

/-- `jsonCollection.sweep` (src/jsonCollection.js:809-817): iterate the
collection, `delete` each entry the callback accepts, return
`prevSize - this.size`.  Only the just-visited key is ever deleted, so the
`for..in` generator visits every initially-present key. -/
def jsonSweep (c : JsonCol) (fn : JsVal → String → Bool) :
    Nat × JsonCol :=
  let prevSize := jsonSize c
  let c' := (jsonKeys c).foldl (fun acc k =>
      match lookupProp acc.store k with
      | some v => if fn v k then ⟨deleteProp acc.store k⟩ else acc
      | none => acc) c
  (prevSize - jsonSize c', c')

/-- `mapCollection.sweep` (src/mapCollection.js:805-813). -/
def mapSweep (m : MapCol) (fn : JsVal → JsKey → Bool) : Nat × MapCol :=
  let prevSize := mapSize m
  let m' := m.entries.foldl (fun acc p =>
      if fn p.2 p.1 then mapDelete acc p.1 else acc) m
  (prevSize - mapSize m', m')

/-! ### clone and concat -/

/-- `jsonCollection.clone` (src/jsonCollection.js:797-800):
`this.create(this.json)`, whose constructor `Object.assign`s the own
properties into a fresh object in enumeration order. -/
def jsonClone (c : JsonCol) : JsonCol :=
  ⟨(jsonEntriesOrdered c).foldl (fun acc p => assignProp acc p.1 p.2) []⟩

/-- An argument handed to `concat`: one of the two collection classes, or a
non-collection value. -/
inductive JsArg where
  | jsonC (c : JsonCol)
  | mapC (m : MapCol)
  | prim (v : JsVal)

/-- `c instanceof Map || c instanceof jsonCollection` — the argument check
of `jsonCollection.concat` (`mapCollection extends Map`). -/
def jsonRecognized : JsArg → Bool
  | .jsonC _ => true
  | .mapC _ => true
  | .prim _ => false

/-- `c instanceof Map` — the argument check of `mapCollection.concat`;
a `jsonCollection` is NOT a `Map`. -/
def mapRecognized : JsArg → Bool
  | .mapC _ => true
  | _ => false

/-- The coercion applied to each merged key by `jsonCollection.concat`:
non-string keys (of a `Map` argument) go through `inspect`. -/
def concatKeyStr : JsKey → String
  | .str s => s
  | k => k.inspect

/-- The `[k, v]` pairs `jsonCollection.concat` draws from one argument:
a `jsonCollection` yields its string-keyed entries, a map its entries
with inspected keys. -/
def jsonConcatEntries : JsArg → List (String × JsVal)
  | .jsonC c => jsonEntriesOrdered c
  | .mapC m => m.entries.map (fun p => (concatKeyStr p.1, p.2))
  | .prim _ => []

/-- `jsonCollection.concat` (src/jsonCollection.js:761-771): clone, check
every argument is `Map`/`jsonCollection` (else `TypeError`), then `set`
all their entries into the clone, later arguments overwriting. -/
def jsonConcat (c : JsonCol) (args : List JsArg) :
    Except JsError JsonCol :=
  if ¬ args.all jsonRecognized then .error .typeError
  else .ok (args.foldl (fun acc a =>
      ⟨(jsonConcatEntries a).foldl
        (fun st p => assignProp st p.1 p.2) acc.store⟩)
    (jsonClone c))

/-- The entries `mapCollection.concat` draws from one (recognized)
argument. -/
def mapConcatEntries : JsArg → List (JsKey × JsVal)
  | .mapC m => m.entries
  | _ => []

/-- `mapCollection.concat` (src/mapCollection.js:760-769): clone (through
the null/undefined-dropping constructor), check every argument is a `Map`
(else `TypeError`), then `set` all their entries into the clone. -/
def mapConcat (m : MapCol) (args : List JsArg) : Except JsError MapCol :=
  if ¬ args.all mapRecognized then .error .typeError
  else .ok (args.foldl (fun acc a =>
      (mapConcatEntries a).foldl (fun mm p => mapSet mm p.1 p.2) acc)
    (mapClone m))

/-! ### equal -/

/-- `jsonCollection.equal` (src/jsonCollection.js:284-295): size check,
then every own entry must be `has` in the other collection with a
strictly-equal value.  (The `!collection instanceof this.constructor`
line is a no-op for a non-null argument — `!collection` binds first.) -/
def jsonEqual (c other : JsonCol) : Bool :=
  if ¬ jsonSize c = jsonSize other then false
  else (jsonEntriesOrdered c).all (fun p =>
    jsonHasStr other p.1 && decide (jsonGetStr other p.1 = p.2))

/-- `mapCollection.equal` (src/mapCollection.js:287-298). -/
def mapEqual (m other : MapCol) : Bool :=
  if ¬ mapSize m = mapSize other then false
  else m.entries.all (fun p =>
    mapHas other p.1 && decide (mapGet other p.1 = p.2))

/-! ### JSON serialization (`toJSON`) and `JSON.parse`

`toJSON` is `JSON.stringify(this.json)` (a flat string-keyed object of
primitive values in the model).  We implement the stringification and a
parser for it over `List Char`.  `JSON.stringify` short-escapes
`"`, `\`, backspace, tab, newline, form feed and carriage return; the
remaining control characters (which it would `\u`-escape) are kept outside
the verified string domain via `jsonSafeChar`. -/

/-- The decimal digit characters. -/
def digitChar (d : Nat) : Char :=
  if d = 0 then '0' else if d = 1 then '1' else if d = 2 then '2'
  else if d = 3 then '3' else if d = 4 then '4' else if d = 5 then '5'
  else if d = 6 then '6' else if d = 7 then '7' else if d = 8 then '8'
  else '9'

/-- Decimal digits of a natural number, most significant first. -/
def natChars (n : Nat) : List Char :=
  if _h : n < 10 then [digitChar n]
  else natChars (n / 10) ++ [digitChar (n % 10)]
decreasing_by
  exact Nat.div_lt_self (by omega) (by omega)

/-- Decimal representation of an integer-valued JS number, as
`JSON.stringify` prints it. -/
def intChars (n : Int) : List Char :=
  if n < 0 then '-' :: natChars (-n).toNat else natChars n.toNat

/-- Numeric value of a digit string (the fold both `canonIndex?` and the
parser use). -/
def digitsToNat (ds : List Char) : Nat :=
  ds.foldl (fun a d => a * 10 + (d.toNat - 48)) 0

/-- The escaping `JSON.stringify` applies to one string character. -/
def escChar (c : Char) : List Char :=
  if c = dquoteC then [bslashC, dquoteC]
  else if c = bslashC then [bslashC, bslashC]
  else if c = bsC then [bslashC, 'b']
  else if c = tabC then [bslashC, 't']
  else if c = nlC then [bslashC, 'n']
  else if c = ffC then [bslashC, 'f']
  else if c = crC then [bslashC, 'r']
  else [c]

/-- Decoding of a short escape sequence. -/
def unescChar (e : Char) : Option Char :=
  if e = dquoteC then some dquoteC
  else if e = bslashC then some bslashC
  else if e = 'b' then some bsC
  else if e = 't' then some tabC
  else if e = 'n' then some nlC
  else if e = 'f' then some ffC
  else if e = 'r' then some crC
  else none

/-- Characters within the verified string domain: everything except the
control characters that `JSON.stringify` would `\u`-escape. -/
def jsonSafeChar (c : Char) : Bool :=
  32 ≤ c.toNat ∨ c = bsC ∨ c = tabC ∨ c = nlC ∨ c = ffC ∨ c = crC

def jsonSafeStr (s : String) : Bool := s.data.all jsonSafeChar

/-- A JSON string literal, quotes and escapes included. -/
def quotedChars (s : String) : List Char :=
  dquoteC :: (s.data.flatMap escChar) ++ [dquoteC]

/-- Serialization of one primitive value (`undefined` never reaches this:
`JSON.stringify` drops such properties). -/
def jvalChars : JsVal → List Char
  | .str s => quotedChars s
  | .num n => intChars n
  | .bool b => if b then "true".data else "false".data
  | .null => "null".data
  | .undef => []

/-- `"key":value`. -/
def entryChars (p : String × JsVal) : List Char :=
  quotedChars p.1 ++ ':' :: jvalChars p.2

/-- The comma-separated entry list, closed by `}`. -/
def entriesChars : List (String × JsVal) → List Char
  | [] => [rbraceC]
  | [p] => entryChars p ++ [rbraceC]
  | p :: ps => entryChars p ++ ',' :: entriesChars ps

/-- The own properties `JSON.stringify` serializes: enumeration order,
properties whose value is `undefined` skipped. -/
def serEntries (c : JsonCol) : List (String × JsVal) :=
  (jsonEntriesOrdered c).filter (fun p => ¬ p.2 = JsVal.undef)

/-- `jsonCollection.toJSON` (src/jsonCollection.js:383-385):
`JSON.stringify(this.json)`. -/
def jsonToJSON (c : JsonCol) : String :=
  String.mk (lbraceC :: entriesChars (serEntries c))

/-- `mapCollection.toJSON` (src/mapCollection.js:386-392): flatten the map
into a plain object — the property key is the raw key string-coerced by
the property write (`json[k] = v`), NOT inspected — then stringify. -/
def mapToJSON (m : MapCol) : String :=
  let obj : JsonCol :=
    ⟨m.entries.foldl (fun st p => assignProp st p.1.toStr p.2) []⟩
  String.mk (lbraceC :: entriesChars (serEntries obj))

/-- Parsing the inside of a string literal, up to the closing quote;
returns the decoded characters and the rest of the input. -/
def parseStrBody : List Char → Option (List Char × List Char)
  | [] => none
  | c :: rest =>
    if c = dquoteC then some ([], rest)
    else if c = bslashC then
      match rest with
      | [] => none
      | e :: rest2 =>
        match unescChar e with
        | some d => (parseStrBody rest2).map (fun p => (d :: p.1, p.2))
        | none => none
    else (parseStrBody rest).map (fun p => (c :: p.1, p.2))

/-- Splits the leading run of digits off the input. -/
def splitDigits : List Char → (List Char × List Char)
  | [] => ([], [])
  | c :: rest =>
    if c.isDigit then
      let p := splitDigits rest
      (c :: p.1, p.2)
    else ([], c :: rest)

/-- Parsing one primitive JSON value. -/
def parseJVal (l : List Char) : Option (JsVal × List Char) :=
  match l with
  | [] => none
  | c :: rest =>
    if c = dquoteC then
      (parseStrBody rest).map (fun p => (JsVal.str (String.mk p.1), p.2))
    else if l.take 4 = "true".data then some (.bool true, l.drop 4)
    else if l.take 5 = "false".data then some (.bool false, l.drop 5)
    else if l.take 4 = "null".data then some (.null, l.drop 4)
    else if c = '-' then
      let p := splitDigits rest
      if p.1.isEmpty then none
      else some (.num (-(digitsToNat p.1 : Int)), p.2)
    else if c.isDigit then
      let p := splitDigits l
      some (.num (digitsToNat p.1), p.2)
    else none

/-- Parsing the entry list of a non-empty flat object, after the opening
brace; fuel bounds the number of entries. -/
def parseEntries (fuel : Nat) (l : List Char) :
    Option (List (String × JsVal) × List Char) :=
  match fuel with
  | 0 => none
  | fuel + 1 =>
    match l with
    | c :: rest =>
      if c = dquoteC then
        match parseStrBody rest with
        | none => none
        | some (kcs, rest1) =>
          match rest1 with
          | ':' :: rest2 =>
            match parseJVal rest2 with
            | none => none
            | some (v, rest3) =>
              match rest3 with
              | d :: rest4 =>
                if d = ',' then
                  (parseEntries fuel rest4).map
                    (fun p => ((String.mk kcs, v) :: p.1, p.2))
                else if d = rbraceC then some ([(String.mk kcs, v)], rest4)
                else none
              | [] => none
          | _ => none
      else none
    | [] => none

/-- `JSON.parse` on the flat objects the library writes.  Rejects anything
that is not a single fully-consumed object — `load` turns a parse failure
into its invalid-data error. -/
def jsonParseFlat (s : String) : Option (List (String × JsVal)) :=
  match s.data with
  | c :: rest =>
    if c = lbraceC then
      match rest with
      | d :: rest2 =>
        if d = rbraceC ∧ rest2.isEmpty then some []
        else
          match parseEntries rest.length rest with
          | some (es, []) => some es
          | _ => none
      | [] => none
    else none
  | [] => none

/-! ### save / load

The async file I/O is modeled by making `save` return the string it writes
and `load` take the file content as an argument; the host file system
transports the string unchanged (I/O failures surface as host errors and
are outside the model, as is the `process.cwd()` path resolution, which is
the same deterministic function of the path on both sides). -/

/-- Path validation shared by `save` and `load`: must be a (non-empty)
string ending in `.json`. -/
def listEndsWith (l s : List Char) : Bool :=
  decide (l.reverse.take s.length = s.reverse)

def validPath (path : String) : Bool :=
  listEndsWith path.data (String.data ".json")

/-- `jsonCollection.save` (src/jsonCollection.js:827-846) with
`overwrite = true`: validate the path, then write `this.toJSON()` as the
whole file content. -/
def jsonSave (path : String) (c : JsonCol) : Except JsError String :=
  if ¬ validPath path then .error .pathError
  else .ok (jsonToJSON c)

/-- `mapCollection.save` (src/mapCollection.js:823-842), overwrite mode. -/
def mapSave (path : String) (m : MapCol) : Except JsError String :=
  if ¬ validPath path then .error .pathError
  else .ok (mapToJSON m)

/-- `jsonCollection.load` (src/jsonCollection.js:856-879): validate the
path, parse the file content (invalid JSON throws the data error); with
`overwrite` true, `this.clear()` then `this.json = data` — the parsed
object becomes the entire backing store; with `overwrite` false, each
parsed entry is merged through `set`. -/
def jsonLoad (path : String) (content : String) (c : JsonCol)
    (overwrite : Bool) : Except JsError JsonCol :=
  if ¬ validPath path then .error .pathError
  else
    match jsonParseFlat content with
    | none => .error .dataError
    | some data =>
      if overwrite then .ok ⟨data⟩
      else .ok ⟨(jsonEntriesOrdered ⟨data⟩).foldl
        (fun st p => assignProp st p.1 p.2) c.store⟩

/-- `mapCollection.load` (src/mapCollection.js:852-873): validate, parse;
with `overwrite` true clear first; then `set` each parsed property (as a
string key) in enumeration order. -/
def mapLoad (path : String) (content : String) (m : MapCol)
    (overwrite : Bool) : Except JsError MapCol :=
  if ¬ validPath path then .error .pathError
  else
    match jsonParseFlat content with
    | none => .error .dataError
    | some data =>
      let m0 := if overwrite then (⟨[]⟩ : MapCol) else m
      .ok ((jsonEntriesOrdered ⟨data⟩).foldl
        (fun mm p => mapSet mm (.str p.1) p.2) m0)

/-! ## Well-formedness

Any store reachable through the API has pairwise-distinct keys; theorems
about arbitrary states assume it. -/

/-- Distinct property keys of a `jsonCollection` store. -/
def JsonWf (c : JsonCol) : Prop := (c.store.map Prod.fst).Nodup

/-- Pairwise SameValueZero-distinct keys of a `mapCollection` store. -/
def MapWf (m : MapCol) : Prop :=
  m.entries.Pairwise (fun p q => p.1.sameValueZero q.1 = false)

instance (c : JsonCol) : Decidable (JsonWf c) := by
  unfold JsonWf; infer_instance

instance (m : MapCol) : Decidable (MapWf m) := by
  unfold MapWf; infer_instance

/-! ## Association-list lemmas for the JS-object store -/

theorem lookupProp_nil {k : String} : lookupProp [] k = none := rfl

theorem lookupProp_cons {p : String × JsVal} {l : List (String × JsVal)}
    {k : String} :
    lookupProp (p :: l) k = if p.1 = k then some p.2 else lookupProp l k := by
  by_cases h : p.1 = k <;> simp [lookupProp, List.find?_cons, h]

theorem lookupProp_eq_none {l : List (String × JsVal)} {k : String} :
    lookupProp l k = none ↔ k ∉ l.map Prod.fst := by
  induction l with
  | nil => simp [lookupProp]
  | cons p l ih =>
    rw [lookupProp_cons, List.map_cons]
    by_cases h : p.1 = k
    · simp [h]
    · simp only [if_neg h, ih, List.mem_cons]
      constructor
      · intro hk hmem
        rcases hmem with rfl | hmem
        · exact h rfl
        · exact hk hmem
      · intro hk hmem
        exact hk (Or.inr hmem)

theorem lookupProp_isSome {l : List (String × JsVal)} {k : String} :
    (lookupProp l k).isSome ↔ k ∈ l.map Prod.fst := by
  rcases h : lookupProp l k with _ | v
  · simp only [Option.isSome_none, Bool.false_eq_true, false_iff]
    exact lookupProp_eq_none.mp h
  · simp only [Option.isSome_some, true_iff]
    by_contra hk
    rw [lookupProp_eq_none.mpr hk] at h
    cases h

/-- With distinct keys, each entry is what lookup finds. -/
theorem lookupProp_of_mem {l : List (String × JsVal)} {p : String × JsVal}
    (hN : (l.map Prod.fst).Nodup) (hp : p ∈ l) :
    lookupProp l p.1 = some p.2 := by
  induction l with
  | nil => cases hp
  | cons q l ih =>
    rw [List.map_cons, List.nodup_cons] at hN
    rcases List.mem_cons.mp hp with rfl | hp
    · simp [lookupProp_cons]
    · rw [lookupProp_cons, if_neg, ih hN.2 hp]
      intro hqp
      exact hN.1 (hqp ▸ List.mem_map.mpr ⟨p, hp, rfl⟩)

theorem lookupProp_append {l₁ l₂ : List (String × JsVal)} {k : String} :
    lookupProp (l₁ ++ l₂) k =
      (lookupProp l₁ k).orElse (fun _ => lookupProp l₂ k) := by
  induction l₁ with
  | nil => simp [lookupProp]
  | cons p l ih =>
    by_cases h : p.1 = k <;>
      simp [lookupProp_cons, h, ih, Option.orElse]

/-- Updating the value of property `k` leaves lookups of other keys
untouched. -/
theorem lookupProp_mapUpdate_ne {l : List (String × JsVal)}
    {k k₂ : String} {v : JsVal} (h : ¬ k₂ = k) :
    lookupProp (l.map (fun p => if p.1 = k then (k, v) else p)) k₂ =
      lookupProp l k₂ := by
  induction l with
  | nil => rfl
  | cons p l ih =>
    have h2 : ¬ k = k₂ := fun hh => h hh.symm
    by_cases hpk : p.1 = k <;>
      simp [hpk, lookupProp_cons, ih, h2]

theorem lookupProp_mapUpdate_self {l : List (String × JsVal)}
    {k : String} {v : JsVal} (h : k ∈ l.map Prod.fst) :
    lookupProp (l.map (fun p => if p.1 = k then (k, v) else p)) k =
      some v := by
  induction l with
  | nil => cases h
  | cons p l ih =>
    by_cases hpk : p.1 = k
    · rw [List.map_cons, if_pos hpk, lookupProp_cons, if_pos rfl]
    · rw [List.map_cons] at h
      rcases List.mem_cons.mp h with h1 | h1
    -- the head key differs, so membership comes from the tail
      · exact absurd h1.symm hpk
      · rw [List.map_cons, if_neg hpk, lookupProp_cons, if_neg hpk, ih h1]

theorem any_key_iff_mem {l : List (String × JsVal)} {k : String} :
    (l.any fun p => p.1 = k) = true ↔ k ∈ l.map Prod.fst := by
  rw [List.any_eq_true, List.mem_map]
  constructor
  · rintro ⟨p, hp, h⟩
    exact ⟨p, hp, of_decide_eq_true h⟩
  · rintro ⟨p, hp, h⟩
    exact ⟨p, hp, decide_eq_true h⟩

theorem lookupProp_assignProp {l : List (String × JsVal)}
    {k k₂ : String} {v : JsVal} :
    lookupProp (assignProp l k v) k₂ =
      if k₂ = k then some v else lookupProp l k₂ := by
  unfold assignProp
  by_cases hmem : (l.any fun p => p.1 = k) = true
  · rw [if_pos hmem]
    by_cases hk2 : k₂ = k
    · subst hk2
      rw [if_pos rfl, lookupProp_mapUpdate_self (any_key_iff_mem.mp hmem)]
    · rw [if_neg hk2, lookupProp_mapUpdate_ne hk2]
  · rw [if_neg hmem, lookupProp_append]
    have hk : k ∉ l.map Prod.fst := fun hh => hmem (any_key_iff_mem.mpr hh)
    by_cases hk2 : k₂ = k
    · subst hk2
      rw [lookupProp_eq_none.mpr hk]
      simp [lookupProp, Option.orElse]
    · have hkk : ¬ k = k₂ := fun hh => hk2 hh.symm
      have h1 : lookupProp [(k, v)] k₂ = none := by
        simp [lookupProp_cons, hkk, lookupProp_nil]
      rcases hx : lookupProp l k₂ with _ | v₂ <;>
        simp [hx, h1, Option.orElse, hk2]

/-- Writing an absent property appends it. -/
theorem assignProp_of_not_mem {l : List (String × JsVal)} {k : String}
    {v : JsVal} (h : k ∉ l.map Prod.fst) :
    assignProp l k v = l ++ [(k, v)] := by
  unfold assignProp
  rw [if_neg]
  intro ha
  exact h (any_key_iff_mem.mp ha)

/-- The key list after a property write: unchanged when present, the new
key appended when absent. -/
theorem map_fst_assignProp {l : List (String × JsVal)} {k : String}
    {v : JsVal} :
    (assignProp l k v).map Prod.fst =
      if k ∈ l.map Prod.fst then l.map Prod.fst
      else l.map Prod.fst ++ [k] := by
  unfold assignProp
  by_cases hmem : (l.any fun p => p.1 = k) = true
  · rw [if_pos hmem, if_pos (any_key_iff_mem.mp hmem), List.map_map]
    apply List.map_congr_left
    intro p _
    by_cases hpk : p.1 = k <;> simp [hpk]
  · rw [if_neg hmem, if_neg (fun hh => hmem (any_key_iff_mem.mpr hh))]
    simp

theorem nodup_assignProp {l : List (String × JsVal)} {k : String}
    {v : JsVal} (h : (l.map Prod.fst).Nodup) :
    ((assignProp l k v).map Prod.fst).Nodup := by
  rw [map_fst_assignProp]
  by_cases hmem : k ∈ l.map Prod.fst
  · rwa [if_pos hmem]
  · rw [if_neg hmem, List.nodup_append]
    refine ⟨h, List.nodup_singleton _, ?_⟩
    intro a ha hb
    rw [List.mem_singleton] at hb
    subst hb
    exact hmem ha

theorem map_fst_deleteProp {l : List (String × JsVal)} {k : String} :
    (deleteProp l k).map Prod.fst =
      (l.map Prod.fst).filter (fun s => ¬ s = k) := by
  induction l with
  | nil => rfl
  | cons p l ih =>
    by_cases h : p.1 = k
    · have h1 : deleteProp (p :: l) k = deleteProp l k := by
        simp [deleteProp, List.filter_cons, h]
      have h2 : ((p :: l).map Prod.fst).filter (fun s => ¬ s = k) =
          (l.map Prod.fst).filter (fun s => ¬ s = k) := by
        simp [List.filter_cons, h]
      rw [h1, h2, ih]
    · have h1 : deleteProp (p :: l) k = p :: deleteProp l k := by
        simp [deleteProp, List.filter_cons, h]
      have h2 : ((p :: l).map Prod.fst).filter (fun s => ¬ s = k) =
          p.1 :: (l.map Prod.fst).filter (fun s => ¬ s = k) := by
        simp [List.filter_cons, h]
      rw [h1, List.map_cons, h2, ih]

theorem lookupProp_deleteProp {l : List (String × JsVal)} {k k₂ : String} :
    lookupProp (deleteProp l k) k₂ =
      if k₂ = k then none else lookupProp l k₂ := by
  induction l with
  | nil => simp [deleteProp, lookupProp]
  | cons p l ih =>
    by_cases hpk : p.1 = k
    · rw [show deleteProp (p :: l) k = deleteProp l k by
        simp [deleteProp, List.filter_cons, hpk], ih]
      by_cases hk2 : k₂ = k
      · rw [if_pos hk2, if_pos hk2]
      · rw [if_neg hk2, if_neg hk2, lookupProp_cons,
          if_neg (fun hh => hk2 (hh.symm.trans hpk))]
    · rw [show deleteProp (p :: l) k = p :: deleteProp l k by
        simp [deleteProp, List.filter_cons, hpk], lookupProp_cons,
        lookupProp_cons, ih]
      by_cases hpk2 : p.1 = k₂
      · rw [if_pos hpk2, if_pos hpk2, if_neg (fun hh => hpk (hpk2.trans hh))]
      · rw [if_neg hpk2, if_neg hpk2]

theorem nodup_deleteProp {l : List (String × JsVal)} {k : String}
    (h : (l.map Prod.fst).Nodup) :
    ((deleteProp l k).map Prod.fst).Nodup := by
  rw [map_fst_deleteProp]
  exact h.filter _

/-! ## The enumeration order `jsonKeys` -/

theorem insertIdx_perm (x : String) (l : List String) :
    List.Perm (insertIdx x l) (x :: l) := by
  induction l with
  | nil => rfl
  | cons y ys ih =>
    unfold insertIdx
    by_cases h : idxLe x y
    · rw [if_pos h]
    · rw [if_neg h]
      exact (List.Perm.cons y ih).trans (List.Perm.swap x y ys)

theorem sortIdxKeys_perm (l : List String) : List.Perm (sortIdxKeys l) l := by
  induction l with
  | nil => rfl
  | cons x xs ih =>
    exact (insertIdx_perm x (sortIdxKeys xs)).trans (List.Perm.cons x ih)

theorem jsonKeys_perm (c : JsonCol) :
    List.Perm (jsonKeys c) (c.store.map Prod.fst) := by
  unfold jsonKeys
  have h2 : (c.store.map Prod.fst).filter (fun s => (canonIndex? s).isNone) =
      (c.store.map Prod.fst).filter (fun s => !((canonIndex? s).isSome)) := by
    apply List.filter_congr
    intro s _
    rcases canonIndex? s with _ | n <;> rfl
  refine List.Perm.trans ((sortIdxKeys_perm _).append_right _) ?_
  rw [h2]
  exact List.filter_append_perm _ _

theorem jsonKeys_length (c : JsonCol) :
    (jsonKeys c).length = c.store.length := by
  rw [(jsonKeys_perm c).length_eq, List.length_map]

theorem mem_jsonKeys {c : JsonCol} {k : String} :
    k ∈ jsonKeys c ↔ k ∈ c.store.map Prod.fst :=
  (jsonKeys_perm c).mem_iff

theorem jsonKeys_nodup {c : JsonCol} (h : JsonWf c) :
    (jsonKeys c).Nodup :=
  ((jsonKeys_perm c).nodup_iff).mpr h

/-- Under well-formedness the iteration pairs are a permutation of the
backing store. -/
theorem jsonEntriesOrdered_perm {c : JsonCol} (h : JsonWf c) :
    List.Perm (jsonEntriesOrdered c) c.store := by
  unfold jsonEntriesOrdered
  have hmap : (c.store.map Prod.fst).map
      (fun k => (k, (lookupProp c.store k).getD JsVal.undef)) = c.store := by
    rw [List.map_map]
    have hcong : ∀ p ∈ c.store,
        ((fun k => (k, (lookupProp c.store k).getD JsVal.undef)) ∘ Prod.fst) p
          = id p := by
      intro p hp
      simp [lookupProp_of_mem h hp]
    rw [List.map_congr_left hcong, List.map_id]
  have hp := (jsonKeys_perm c).map
    (fun k => (k, (lookupProp c.store k).getD JsVal.undef))
  rwa [hmap] at hp

/-- Looking up a key of the iteration list gives the stored value. -/
theorem lookupProp_entriesOrdered_mem {c : JsonCol} {p : String × JsVal}
    (h : JsonWf c) (hp : p ∈ jsonEntriesOrdered c) :
    lookupProp c.store p.1 = some p.2 :=
  lookupProp_of_mem h ((jsonEntriesOrdered_perm h).mem_iff.mp hp)

/-! ## SameValueZero and the map store -/

theorem svz_refl (k : JsKey) : k.sameValueZero k = true := by
  cases k <;> simp [JsKey.sameValueZero]

theorem svz_symm {a b : JsKey} :
    a.sameValueZero b = b.sameValueZero a := by
  cases a <;> cases b <;> simp [JsKey.sameValueZero, eq_comm]

theorem svz_trans {a b c : JsKey} (h1 : a.sameValueZero b = true)
    (h2 : b.sameValueZero c = true) : a.sameValueZero c = true := by
  cases a <;> cases b <;> cases c <;>
    simp_all [JsKey.sameValueZero]

theorem mapLookup_eq_none {m : MapCol} {k : JsKey} :
    mapLookup m k = none ↔
      ∀ p ∈ m.entries, p.1.sameValueZero k = false := by
  unfold mapLookup
  rcases h : m.entries.find? (fun p => p.1.sameValueZero k) with _ | p
  · rw [h]
    constructor
    · intro _ p hp
      have := List.find?_eq_none.mp h p hp
      simpa using this
    · intro _
      rfl
  · rw [h]
    have hmem := List.mem_of_find?_eq_some h
    have hsat : p.1.sameValueZero k = true := by
      simpa using List.find?_some h
    constructor
    · intro hc
      simp at hc
    · intro hall
      rw [hall p hmem] at hsat
      cases hsat

theorem mapLookup_cons {p : JsKey × JsVal} {l : List (JsKey × JsVal)}
    {k : JsKey} :
    mapLookup ⟨p :: l⟩ k =
      if p.1.sameValueZero k then some p.2 else mapLookup ⟨l⟩ k := by
  by_cases h : p.1.sameValueZero k <;>
    simp [mapLookup, List.find?_cons, h]

theorem mapLookup_append {l₁ l₂ : List (JsKey × JsVal)} {k : JsKey} :
    mapLookup ⟨l₁ ++ l₂⟩ k =
      (mapLookup ⟨l₁⟩ k).orElse (fun _ => mapLookup ⟨l₂⟩ k) := by
  induction l₁ with
  | nil => simp [mapLookup]
  | cons p l ih =>
    by_cases h : p.1.sameValueZero k <;>
      simp [mapLookup_cons, h, ih, Option.orElse]

/-- Updating the SameValueZero class of `k` does not change lookups of
keys outside that class. -/
theorem mapLookup_mapUpdate_ne {l : List (JsKey × JsVal)} {k k₂ : JsKey}
    {v : JsVal} (h : k₂.sameValueZero k = false) :
    mapLookup ⟨l.map (fun p =>
        if p.1.sameValueZero k then (p.1, v) else p)⟩ k₂ =
      mapLookup ⟨l⟩ k₂ := by
  induction l with
  | nil => rfl
  | cons p l ih =>
    rw [List.map_cons]
    by_cases hpk : p.1.sameValueZero k
    · have hpk2 : p.1.sameValueZero k₂ = false := by
        by_contra hc
        rw [Bool.not_eq_false] at hc
        have h1 : k₂.sameValueZero p.1 = true := by
          rw [svz_symm] at hc
          exact hc
        rw [svz_trans h1 hpk] at h
        cases h
      rw [if_pos hpk, mapLookup_cons, mapLookup_cons,
        if_neg (by simp [hpk2]), if_neg (by simp [hpk2]), ih]
    · rw [if_neg hpk, mapLookup_cons, mapLookup_cons, ih]

/-- After an update hit, every key of the written class reads the new
value. -/
theorem mapLookup_mapUpdate_self {l : List (JsKey × JsVal)} {k k₂ : JsKey}
    {v : JsVal} (h : k₂.sameValueZero k = true)
    (hmem : (l.any fun p => p.1.sameValueZero k) = true) :
    mapLookup ⟨l.map (fun p =>
        if p.1.sameValueZero k then (p.1, v) else p)⟩ k₂ = some v := by
  induction l with
  | nil => cases hmem
  | cons p l ih =>
    rw [List.map_cons]
    by_cases hpk : p.1.sameValueZero k
    · have hcond : p.1.sameValueZero k₂ = true := by
        have hk2 : k.sameValueZero k₂ = true := by
          rw [svz_symm] at h
          exact h
        exact svz_trans hpk hk2
      rw [if_pos hpk, mapLookup_cons, if_pos (by simp [hcond])]
    · have hcond : p.1.sameValueZero k₂ = false := by
        by_contra hc
        rw [Bool.not_eq_false] at hc
        have : p.1.sameValueZero k = true := svz_trans hc h
        exact hpk this
      have hl : (l.any fun p => p.1.sameValueZero k) = true := by
        rcases List.any_eq_true.mp hmem with ⟨q, hq, hqk⟩
        rcases List.mem_cons.mp hq with rfl | hq
        · exact absurd hqk (by simpa using hpk)
        · exact List.any_eq_true.mpr ⟨q, hq, hqk⟩
      rw [if_neg hpk, mapLookup_cons, if_neg (by simp [hcond]), ih hl]

/-- `Map.set` seen through lookup: the SameValueZero class of the written
key now maps to the new value, all other keys are untouched. -/
theorem mapLookup_assign {l : List (JsKey × JsVal)} {k k₂ : JsKey}
    {v : JsVal} :
    mapLookup ⟨mapAssign l k v⟩ k₂ =
      if k₂.sameValueZero k then some v else mapLookup ⟨l⟩ k₂ := by
  unfold mapAssign
  by_cases hmem : (l.any fun p => p.1.sameValueZero k) = true
  · rw [if_pos hmem]
    by_cases hk2 : k₂.sameValueZero k = true
    · rw [if_pos hk2, mapLookup_mapUpdate_self hk2 hmem]
    · rw [if_neg hk2,
        mapLookup_mapUpdate_ne (Bool.not_eq_true _ ▸ hk2 : _)]
  · rw [if_neg hmem, mapLookup_append]
    have hnone : ∀ p ∈ l, p.1.sameValueZero k = false := by
      intro p hp
      by_contra hc
      rw [Bool.not_eq_false] at hc
      exact hmem (List.any_eq_true.mpr ⟨p, hp, hc⟩)
    by_cases hk2 : k₂.sameValueZero k = true
    · rw [if_pos hk2]
      have h1 : mapLookup ⟨l⟩ k₂ = none := by
        rw [mapLookup_eq_none]
        intro p hp
        by_contra hc
        rw [Bool.not_eq_false] at hc
        have := svz_trans hc hk2
        rw [hnone p hp] at this
        cases this
      have h2 : k.sameValueZero k₂ = true := by
        rw [svz_symm] at hk2
        exact hk2
      rw [h1]
      simp [mapLookup_cons, h2, Option.orElse, mapLookup]
    · rw [if_neg hk2]
      have h1 : mapLookup ⟨[(k, v)]⟩ k₂ = none := by
        rw [mapLookup_eq_none]
        intro p hp
        rw [List.mem_singleton] at hp
        subst hp
        rw [show (k, v).1 = k from rfl, svz_symm]
        exact Bool.not_eq_true _ ▸ hk2
      rcases hx : mapLookup ⟨l⟩ k₂ with _ | v₂ <;>
        simp [hx, h1, Option.orElse]

theorem mapHas_iff_lookup {m : MapCol} {k : JsKey} :
    mapHas m k = true ↔ (mapLookup m k).isSome = true := by
  unfold mapHas mapLookup
  rcases hm : m.entries with _ | ⟨p, l⟩
  · simp
  · rw [if_neg (by simp)]
    have h1 : ((p :: l).find? (fun q => q.1.sameValueZero k)).isSome = true ↔
        ∃ q ∈ p :: l, q.1.sameValueZero k = true := List.find?_isSome
    constructor
    · intro h
      rcases List.any_eq_true.mp h with ⟨q, hq, hqk⟩
      have := h1.mpr ⟨q, hq, hqk⟩
      simpa using this
    · intro h
      have : ((p :: l).find? (fun q => q.1.sameValueZero k)).isSome = true := by
        simpa using h
      rcases h1.mp this with ⟨q, hq, hqk⟩
      exact List.any_eq_true.mpr ⟨q, hq, hqk⟩

/-! ## Fold lemmas: building stores by repeated `set` -/

/-- Lookup over `[(k, f k)]`-shaped lists. -/
theorem lookupProp_map_mk {ks : List String} {f : String → JsVal}
    {k : String} :
    lookupProp (ks.map (fun k => (k, f k))) k =
      if k ∈ ks then some (f k) else none := by
  induction ks with
  | nil => simp [lookupProp]
  | cons a ks ih =>
    rw [List.map_cons, lookupProp_cons]
    by_cases h : a = k
    · subst h
      simp
    · rw [if_neg (show ¬((a, f a) : String × JsVal).1 = k from h), ih]
      have h2 : ¬ k = a := fun hh => h hh.symm
      by_cases hmem : k ∈ ks
      · simp [hmem]
      · simp [hmem, h2]

/-- Folding `set` over fresh pairs appends them. -/
theorem foldAssign_disjoint {es st : List (String × JsVal)}
    (hdis : ∀ p ∈ es, p.1 ∉ st.map Prod.fst)
    (hnd : (es.map Prod.fst).Nodup) :
    es.foldl (fun acc p => assignProp acc p.1 p.2) st = st ++ es := by
  induction es generalizing st with
  | nil => simp
  | cons p es ih =>
    rw [List.map_cons, List.nodup_cons] at hnd
    rw [List.foldl_cons,
      assignProp_of_not_mem (hdis p (List.mem_cons_self p es))]
    rw [ih ?h1 hnd.2]
    · simp
    case h1 =>
      intro q hq
      rw [List.map_append]
      intro hmem
      rcases List.mem_append.mp hmem with hmem | hmem
      · exact hdis q (List.mem_cons_of_mem p hq) hmem
      · rcases List.mem_map.mp hmem with ⟨r, hr, hrfst⟩
        rw [List.mem_singleton] at hr
        subst hr
        exact hnd.1 (hrfst ▸ List.mem_map.mpr ⟨q, hq, rfl⟩)

/-- A store built from scratch by `set`s of distinct keys is exactly the
entry list. -/
theorem foldAssign_fresh {es : List (String × JsVal)}
    (hnd : (es.map Prod.fst).Nodup) :
    es.foldl (fun acc p => assignProp acc p.1 p.2) [] = es := by
  rw [foldAssign_disjoint (by intro p _ h; cases h) hnd]
  rfl

/-- Lookup after merging a distinct-keyed entry list by `set`: the merged
entries win, anything else falls back to the base store. -/
theorem foldAssign_lookup {es : List (String × JsVal)}
    {st : List (String × JsVal)} {k : String}
    (hnd : (es.map Prod.fst).Nodup) :
    lookupProp (es.foldl (fun acc p => assignProp acc p.1 p.2) st) k =
      ((es.find? (fun p => p.1 = k)).map Prod.snd).orElse
        (fun _ => lookupProp st k) := by
  induction es generalizing st with
  | nil => simp [Option.orElse]
  | cons p es ih =>
    rw [List.map_cons, List.nodup_cons] at hnd
    rw [List.foldl_cons, ih hnd.2]
    by_cases hk : p.1 = k
    · subst hk
      have hfind : es.find? (fun q => q.1 = p.1) = none := by
        rw [List.find?_eq_none]
        intro q hq
        simp only [decide_eq_true_eq]
        intro hqp
        exact hnd.1 (hqp ▸ List.mem_map.mpr ⟨q, hq, rfl⟩)
      rw [hfind, List.find?_cons_of_pos _ (by simp)]
      simp [Option.orElse, lookupProp_assignProp]
    · rw [List.find?_cons_of_neg _ (by simpa using hk)]
      have hk2 : ¬ k = p.1 := fun hh => hk hh.symm
      rcases hf : es.find? (fun q => q.1 = k) with _ | q
      · simp [hf, Option.orElse, lookupProp_assignProp, hk2]
      · simp [hf, Option.orElse]

theorem foldAssign_nodup {es st : List (String × JsVal)}
    (h : (st.map Prod.fst).Nodup) :
    ((es.foldl (fun acc p => assignProp acc p.1 p.2) st).map Prod.fst).Nodup := by
  induction es generalizing st with
  | nil => exact h
  | cons p es ih =>
    rw [List.foldl_cons]
    exact ih (nodup_assignProp h)

/-- `clone` of a well-formed `jsonCollection` is its iteration list. -/
theorem jsonClone_eq {c : JsonCol} (h : JsonWf c) :
    jsonClone c = ⟨jsonEntriesOrdered c⟩ := by
  unfold jsonClone
  have hnd : ((jsonEntriesOrdered c).map Prod.fst).Nodup := by
    have hfst : (jsonEntriesOrdered c).map Prod.fst = jsonKeys c := by
      unfold jsonEntriesOrdered
      rw [List.map_map]
      exact List.map_id _
    rw [hfst]
    exact jsonKeys_nodup h
  rw [foldAssign_fresh hnd]

/-! Map-side fold lemmas. -/

/-- Pairwise SameValueZero-distinctness of an entry list. -/
def PairwiseSvz (l : List (JsKey × JsVal)) : Prop :=
  l.Pairwise (fun p q => p.1.sameValueZero q.1 = false)

theorem foldMapSet_disjoint {es : List (JsKey × JsVal)} {m : MapCol}
    (hdis : ∀ p ∈ es, ∀ q ∈ m.entries, q.1.sameValueZero p.1 = false)
    (hnd : PairwiseSvz es) :
    es.foldl (fun mm p => mapSet mm p.1 p.2) m = ⟨m.entries ++ es⟩ := by
  induction es generalizing m with
  | nil => simp
  | cons p es ih =>
    rw [PairwiseSvz, List.pairwise_cons] at hnd
    have hset : mapSet m p.1 p.2 = ⟨m.entries ++ [(p.1, p.2)]⟩ := by
      unfold mapSet mapAssign
      rw [if_neg]
      intro hany
      rcases List.any_eq_true.mp hany with ⟨q, hq, hqk⟩
      rw [hdis p (List.mem_cons_self p es) q hq] at hqk
      cases hqk
    rw [List.foldl_cons, hset, ih ?hd hnd.2]
    · simp
    case hd =>
      intro r hr q hq
      rcases List.mem_append.mp hq with hq | hq
      · exact hdis r (List.mem_cons_of_mem p hr) q hq
      · rw [List.mem_singleton] at hq
        subst hq
        exact hnd.1 r hr

theorem foldMapSet_fresh {es : List (JsKey × JsVal)} (hnd : PairwiseSvz es) :
    es.foldl (fun mm p => mapSet mm p.1 p.2) ⟨[]⟩ = ⟨es⟩ := by
  rw [foldMapSet_disjoint (by intro p _ q hq; cases hq) hnd]
  rfl

theorem mapSet_foldl_entries (l : List (JsKey × JsVal)) (m : MapCol) :
    l.foldl (fun mm p => mapSet mm p.1 p.2) m =
      ⟨l.foldl (fun acc p => mapAssign acc p.1 p.2) m.entries⟩ := by
  induction l generalizing m with
  | nil => rfl
  | cons p l ih => exact ih ⟨mapAssign m.entries p.1 p.2⟩

theorem mapOfPairs_of_pairwise {l : List (JsKey × JsVal)}
    (hnd : PairwiseSvz l) : mapOfPairs l = ⟨l⟩ := by
  have h1 : mapOfPairs l = l.foldl (fun mm p => mapSet mm p.1 p.2) ⟨[]⟩ := by
    unfold mapOfPairs
    rw [mapSet_foldl_entries l ⟨[]⟩]
  rw [h1, foldMapSet_fresh hnd]

theorem foldMapSet_lookup {es : List (JsKey × JsVal)} {m : MapCol}
    {k : JsKey} (hnd : PairwiseSvz es) :
    mapLookup (es.foldl (fun mm p => mapSet mm p.1 p.2) m) k =
      ((es.find? (fun p => p.1.sameValueZero k)).map Prod.snd).orElse
        (fun _ => mapLookup m k) := by
  induction es generalizing m with
  | nil => simp [Option.orElse]
  | cons p es ih =>
    rw [PairwiseSvz, List.pairwise_cons] at hnd
    rw [List.foldl_cons, ih hnd.2]
    by_cases hk : p.1.sameValueZero k = true
    · have hfind : es.find? (fun q => q.1.sameValueZero k) = none := by
        rw [List.find?_eq_none]
        intro q hq
        simp only [Bool.not_eq_true]
        by_contra hc
        rw [Bool.not_eq_false] at hc
        have h1 : p.1.sameValueZero q.1 = true := by
          have hkq : k.sameValueZero q.1 = true := by
            rw [svz_symm] at hc
            exact hc
          exact svz_trans hk hkq
        rw [hnd.1 q hq] at h1
        cases h1
      have hset : mapLookup (mapSet m p.1 p.2) k = some p.2 := by
        unfold mapSet
        rw [mapLookup_assign, if_pos (by rw [svz_symm] at hk; exact hk)]
      rw [hfind, @List.find?_cons_of_pos _ (fun q => q.1.sameValueZero k) p es hk]
      simp [Option.orElse, hset]
    · have hset : mapLookup (mapSet m p.1 p.2) k = mapLookup m k := by
        unfold mapSet
        rw [mapLookup_assign, if_neg]
        intro hc
        rw [svz_symm] at hc
        exact hk hc
      rw [@List.find?_cons_of_neg _ (fun q => q.1.sameValueZero k) p es hk]
      rcases hf : es.find? (fun q => q.1.sameValueZero k) with _ | q <;>
        simp [hf, Option.orElse, hset]

/-! ## Sweep -/

theorem contains_iff_mem_str {l : List String} {a : String} :
    l.contains a = true ↔ a ∈ l := by
  simp [List.elem_iff]

/-- The deletion loop of `jsonCollection.sweep`, over an arbitrary visit
list: the surviving store filters out exactly the visited keys whose entry
passed the callback. -/
theorem jsonSweep_foldl (fn : JsVal → String → Bool) :
    ∀ (ks : List String) (acc : JsonCol),
    (acc.store.map Prod.fst).Nodup →
    (ks.foldl (fun acc k =>
        match lookupProp acc.store k with
        | some v => if fn v k then ⟨deleteProp acc.store k⟩ else acc
        | none => acc) acc).store =
      acc.store.filter (fun p => !(ks.contains p.1 && fn p.2 p.1)) := by
  intro ks
  induction ks with
  | nil =>
    intro acc _
    simp
  | cons k ks ih =>
    intro acc hnd
    rw [List.foldl_cons]
    rcases hl : lookupProp acc.store k with _ | v
    · simp only [hl]
      rw [ih acc hnd]
      apply List.filter_congr
      intro p hp
      have hpk : ¬ p.1 = k := by
        intro hpk
        rw [lookupProp_eq_none] at hl
        exact hl (hpk ▸ List.mem_map.mpr ⟨p, hp, rfl⟩)
      rw [List.contains_cons]
      have : (p.1 == k) = false := by
        simpa using hpk
      rw [this]
      simp
    · simp only [hl]
      by_cases hfn : fn v k = true
      · rw [if_pos hfn, ih ⟨deleteProp acc.store k⟩ (nodup_deleteProp hnd)]
        show (List.filter _ (deleteProp acc.store k)) = _
        unfold deleteProp
        rw [List.filter_filter]
        apply List.filter_congr
        intro p hp
        rw [List.contains_cons]
        by_cases hpk : p.1 = k
        · have hpv : p.2 = v := by
            have h1 := lookupProp_of_mem hnd hp
            rw [hpk, hl] at h1
            exact (Option.some_inj.mp h1).symm
          have hbeq : (p.1 == k) = true := by simpa using hpk
          rw [hbeq, hpv, hpk, hfn]
          simp
        · have hbeq : (p.1 == k) = false := by simpa using hpk
          rw [hbeq]
          simp [hpk]
      · rw [if_neg hfn, ih acc hnd]
        apply List.filter_congr
        intro p hp
        rw [List.contains_cons]
        by_cases hpk : p.1 = k
        · have hpv : p.2 = v := by
            have h1 := lookupProp_of_mem hnd hp
            rw [hpk, hl] at h1
            exact (Option.some_inj.mp h1).symm
          have hbeq : (p.1 == k) = true := by simpa using hpk
          rw [hbeq, hpv, hpk, (by simpa using hfn : fn v k = false)]
          simp
        · have hbeq : (p.1 == k) = false := by simpa using hpk
          rw [hbeq]
          simp

/-- `jsonCollection.sweep` deletes exactly the entries accepted by the
callback and returns size-before minus size-after. -/
theorem jsonSweep_spec {c : JsonCol} (fn : JsVal → String → Bool)
    (h : JsonWf c) :
    (jsonSweep c fn).2.store = c.store.filter (fun p => !(fn p.2 p.1)) ∧
    (jsonSweep c fn).1 = jsonSize c - jsonSize (jsonSweep c fn).2 := by
  constructor
  · show ((jsonKeys c).foldl _ c).store = _
    rw [jsonSweep_foldl fn (jsonKeys c) c h]
    apply List.filter_congr
    intro p hp
    have : (jsonKeys c).contains p.1 = true :=
      contains_iff_mem_str.mpr
        (mem_jsonKeys.mpr (List.mem_map.mpr ⟨p, hp, rfl⟩))
    rw [this]
    simp
  · rfl

/-- The deletion loop of `mapCollection.sweep`. -/
theorem mapSweep_foldl (fn : JsVal → JsKey → Bool) :
    ∀ (es : List (JsKey × JsVal)) (acc : MapCol),
    (es.foldl (fun acc p =>
        if fn p.2 p.1 then mapDelete acc p.1 else acc) acc).entries =
      acc.entries.filter (fun q =>
        !(es.any (fun p => q.1.sameValueZero p.1 && fn p.2 p.1))) := by
  intro es
  induction es with
  | nil =>
    intro acc
    simp
  | cons p es ih =>
    intro acc
    rw [List.foldl_cons]
    by_cases hfn : fn p.2 p.1 = true
    · rw [if_pos hfn, ih]
      show List.filter _ ((mapDelete acc p.1).entries) = _
      unfold mapDelete
      rw [List.filter_filter]
      apply List.filter_congr
      intro q _
      rw [List.any_cons, hfn]
      by_cases hq : q.1.sameValueZero p.1 = true <;>
        simp [hq]
    · rw [if_neg hfn, ih]
      apply List.filter_congr
      intro q _
      rw [List.any_cons, (by simpa using hfn : fn p.2 p.1 = false)]
      simp

/-- `mapCollection.sweep` deletes exactly the entries accepted by the
callback and returns size-before minus size-after. -/
theorem mapSweep_spec {m : MapCol} (fn : JsVal → JsKey → Bool)
    (h : MapWf m) :
    (mapSweep m fn).2.entries = m.entries.filter (fun p => !(fn p.2 p.1)) ∧
    (mapSweep m fn).1 = mapSize m - mapSize (mapSweep m fn).2 := by
  constructor
  · show (m.entries.foldl _ m).entries = _
    rw [mapSweep_foldl fn m.entries m]
    apply List.filter_congr
    intro q hq
    have hiff : (m.entries.any
        (fun p => q.1.sameValueZero p.1 && fn p.2 p.1)) = fn q.2 q.1 := by
      by_cases hf : fn q.2 q.1 = true
      · rw [hf]
        exact List.any_eq_true.mpr ⟨q, hq, by rw [svz_refl, hf]; rfl⟩
      · rw [(by simpa using hf : fn q.2 q.1 = false)]
        rw [List.any_eq_false]
        intro p hp
        by_cases hqp : q = p
        · subst hqp
          rw [svz_refl, (by simpa using hf : fn q.2 q.1 = false)]
          simp
        · have hsvz : q.1.sameValueZero p.1 = false := by
            have hsym : Symmetric
                (fun a b : JsKey × JsVal => a.1.sameValueZero b.1 = false) := by
              intro a b hab
              rw [svz_symm] at hab
              exact hab
            exact (h.forall hsym) hq hp hqp
          rw [hsvz]
          simp
    rw [hiff]
  · rfl

/-! ## Small bridges -/

theorem svz_null_iff {a : JsKey} :
    a.sameValueZero JsKey.null = true ↔ a = JsKey.null := by
  cases a <;> simp [JsKey.sameValueZero]

theorem svz_undef_iff {a : JsKey} :
    a.sameValueZero JsKey.undef = true ↔ a = JsKey.undef := by
  cases a <;> simp [JsKey.sameValueZero]

theorem mapHas_eq_false_of_none {m : MapCol} {k : JsKey}
    (h : mapLookup m k = none) : mapHas m k = false := by
  by_contra hc
  rw [Bool.not_eq_false] at hc
  have h2 := mapHas_iff_lookup.mp hc
  rw [h] at h2
  cases h2

theorem mapHas_eq_true_of_some {m : MapCol} {k : JsKey} {v : JsVal}
    (h : mapLookup m k = some v) : mapHas m k = true :=
  mapHas_iff_lookup.mpr (by rw [h]; rfl)

theorem foldMapSet_lookup_none {l : List (JsKey × JsVal)} {m : MapCol}
    {k : JsKey} (h : ∀ p ∈ l, p.1.sameValueZero k = false)
    (hm : mapLookup m k = none) :
    mapLookup (l.foldl (fun mm p => mapSet mm p.1 p.2) m) k = none := by
  induction l generalizing m with
  | nil => exact hm
  | cons p l ih =>
    rw [List.foldl_cons]
    refine ih (fun q hq => h q (List.mem_cons_of_mem p hq)) ?_
    show mapLookup ⟨mapAssign m.entries p.1 p.2⟩ k = none
    rw [mapLookup_assign, if_neg, hm]
    intro hc
    have := h p (List.mem_cons_self p l)
    rw [svz_symm] at hc
    rw [this] at hc
    cases hc

theorem mapOfPairs_lookup_none {l : List (JsKey × JsVal)} {k : JsKey}
    (h : ∀ p ∈ l, p.1.sameValueZero k = false) :
    mapLookup (mapOfPairs l) k = none := by
  unfold mapOfPairs
  rw [show (⟨l.foldl (fun acc p => mapAssign acc p.1 p.2) []⟩ : MapCol) =
      l.foldl (fun mm p => mapSet mm p.1 p.2) ⟨[]⟩ from
    (mapSet_foldl_entries l ⟨[]⟩).symm]
  exact foldMapSet_lookup_none h rfl

theorem lookupProp_entriesOrdered {c : JsonCol} (k : String) :
    lookupProp (jsonEntriesOrdered c) k = lookupProp c.store k := by
  unfold jsonEntriesOrdered
  rw [lookupProp_map_mk]
  by_cases hk : k ∈ jsonKeys c
  · rw [if_pos hk]
    rcases ho : lookupProp c.store k with _ | v
    · exfalso
      have h1 := lookupProp_isSome.mpr (mem_jsonKeys.mp hk)
      rw [ho] at h1
      cases h1
    · rfl
  · rw [if_neg hk, eq_comm, lookupProp_eq_none]
    exact fun hm => hk (mem_jsonKeys.mpr hm)

theorem entriesOrdered_fst {c : JsonCol} :
    (jsonEntriesOrdered c).map Prod.fst = jsonKeys c := by
  unfold jsonEntriesOrdered
  rw [List.map_map]
  exact List.map_id _

theorem entriesOrdered_nodup {c : JsonCol} (h : JsonWf c) :
    ((jsonEntriesOrdered c).map Prod.fst).Nodup := by
  rw [entriesOrdered_fst]
  exact jsonKeys_nodup h

/-- `clone` of a well-formed map keeps exactly the entries whose key is
neither `null` nor `undefined`. -/
theorem mapClone_eq {m : MapCol} (h : MapWf m) :
    mapClone m =
      ⟨m.entries.filter
        (fun p => ¬ p.1 = JsKey.null ∧ ¬ p.1 = JsKey.undef)⟩ := by
  unfold mapClone mapFromIterable
  exact mapOfPairs_of_pairwise (List.Pairwise.sublist (List.filter_sublist _) h)

theorem mapLookup_filter_nullundef {l : List (JsKey × JsVal)} {k : JsKey}
    (hk1 : k.sameValueZero JsKey.null = false)
    (hk2 : k.sameValueZero JsKey.undef = false) :
    mapLookup ⟨l.filter
        (fun p => ¬ p.1 = JsKey.null ∧ ¬ p.1 = JsKey.undef)⟩ k =
      mapLookup ⟨l⟩ k := by
  induction l with
  | nil => rfl
  | cons p l ih =>
    rw [List.filter_cons]
    by_cases hp : ¬ p.1 = JsKey.null ∧ ¬ p.1 = JsKey.undef
    · rw [if_pos (by simpa using hp), mapLookup_cons, mapLookup_cons, ih]
    · have hkey : p.1 = JsKey.null ∨ p.1 = JsKey.undef := by
        by_cases h1 : p.1 = JsKey.null
        · exact Or.inl h1
        · by_cases h2 : p.1 = JsKey.undef
          · exact Or.inr h2
          · exact absurd ⟨h1, h2⟩ hp
      have hsvz : p.1.sameValueZero k = false := by
        rcases hkey with hkey | hkey <;>
          · rw [hkey, svz_symm]
            first
              | exact hk1
              | exact hk2
      rw [if_neg (by simpa using hp), mapLookup_cons, if_neg (by simp [hsvz]),
        ih]

/-! ## Build-by-filter fold lemmas (for `filter`) -/

theorem foldFilterAssign_disjoint {es st : List (String × JsVal)}
    {fn : JsVal → String → Bool}
    (hdis : ∀ p ∈ es, p.1 ∉ st.map Prod.fst)
    (hnd : (es.map Prod.fst).Nodup) :
    es.foldl (fun acc p =>
        if fn p.2 p.1 then assignProp acc p.1 p.2 else acc) st =
      st ++ es.filter (fun p => fn p.2 p.1) := by
  induction es generalizing st with
  | nil => simp
  | cons p es ih =>
    rw [List.map_cons, List.nodup_cons] at hnd
    rw [List.foldl_cons, List.filter_cons]
    by_cases hfn : fn p.2 p.1 = true
    · rw [if_pos hfn, if_pos hfn,
        assignProp_of_not_mem (hdis p (List.mem_cons_self p es))]
      rw [ih ?hd hnd.2, List.append_assoc]
      rfl
      case hd =>
        intro q hq
        rw [List.map_append]
        intro hmem
        rcases List.mem_append.mp hmem with hmem | hmem
        · exact hdis q (List.mem_cons_of_mem p hq) hmem
        · rcases List.mem_map.mp hmem with ⟨r, hr, hrfst⟩
          rw [List.mem_singleton] at hr
          subst hr
          exact hnd.1 (hrfst ▸ List.mem_map.mpr ⟨q, hq, rfl⟩)
    · rw [if_neg hfn, if_neg hfn,
        ih (fun q hq => hdis q (List.mem_cons_of_mem p hq)) hnd.2]

theorem mapAssign_of_no_match {l : List (JsKey × JsVal)} {k : JsKey}
    {v : JsVal} (h : ∀ q ∈ l, q.1.sameValueZero k = false) :
    mapAssign l k v = l ++ [(k, v)] := by
  unfold mapAssign
  rw [if_neg]
  intro hany
  rcases List.any_eq_true.mp hany with ⟨q, hq, hqk⟩
  rw [h q hq] at hqk
  cases hqk

theorem foldFilterMapAssign_disjoint {es acc : List (JsKey × JsVal)}
    {fn : JsVal → JsKey → Bool}
    (hdis : ∀ p ∈ es, ∀ q ∈ acc, q.1.sameValueZero p.1 = false)
    (hnd : PairwiseSvz es) :
    es.foldl (fun acc p =>
        if fn p.2 p.1 then mapAssign acc p.1 p.2 else acc) acc =
      acc ++ es.filter (fun p => fn p.2 p.1) := by
  induction es generalizing acc with
  | nil => simp
  | cons p es ih =>
    rw [PairwiseSvz, List.pairwise_cons] at hnd
    rw [List.foldl_cons, List.filter_cons]
    by_cases hfn : fn p.2 p.1 = true
    · rw [if_pos hfn, if_pos hfn,
        mapAssign_of_no_match (hdis p (List.mem_cons_self p es))]
      rw [ih ?hd hnd.2, List.append_assoc]
      rfl
      case hd =>
        intro r hr q hq
        rcases List.mem_append.mp hq with hq | hq
        · exact hdis r (List.mem_cons_of_mem p hr) q hq
        · rw [List.mem_singleton] at hq
          subst hq
          exact hnd.1 r hr
    · rw [if_neg hfn, if_neg hfn,
        ih (fun r hr q hq => hdis r (List.mem_cons_of_mem p hr) q hq) hnd.2]

/-! ## Claim theorems -/

/-- C1 (code bug): the spec demands that `set(k, v); get(k)` round-trips for
every non-function key because the same coercion is used on the store and
lookup paths.  `jsonCollection.get` computes the inspected key `k` but
tests presence with `hasOwnProperty(key)` on the RAW key — for a plain
object key `{}` the raw string form is `"[object Object]"` while the
entry is stored under `"{}"`, so `get` returns `null` for a value `has`
reports present.  Evaluation at the failing input: after
`set({}, "v")` the store holds the entry, `has({})` is `true`, yet
`get({})` is `null`, not `"v"`. -/
theorem claim_C1_get_raw_key_bug :
    ∃ c : JsonCol,
      jsonSet ⟨[]⟩ (JsKey.obj 0 []) (JsVal.str "v") = .ok c ∧
      jsonHas c (JsKey.obj 0 []) = .ok true ∧
      jsonGet c (JsKey.obj 0 []) = .ok JsVal.null ∧
      ¬ JsVal.null = JsVal.str "v" := by
  exact ⟨⟨[(lbraceS ++ rbraceS, JsVal.str "v")]⟩, rfl, rfl, rfl, by decide⟩

/-- C2 fails as stated: `mapCollection.get` is plain `Map.prototype.get`
and yields `undefined` (not `null`) on the seeded example's absent
key `"1"`. -/
theorem counterexample_C2_get_absent :
    mapGet (mapOfPairs [(JsKey.num 1, JsVal.str "x"),
        (JsKey.num 2, JsVal.str "y")]) (JsKey.str "1") = JsVal.undef ∧
    ¬ JsVal.undef = JsVal.null := by
  constructor <;> decide

/-- C2 (amended): `jsonCollection.get` returns `null` when the raw key's
property form is absent; `mapCollection.get` returns `undefined` (not
`null`) for absent keys; on the seeded example, `get(1)` is `"x"` and
`get("1")` is `undefined` — there is no key coercion. -/
theorem claim_C2_absent_get :
    (∀ (m : MapCol) (k : JsKey),
      (∀ p ∈ m.entries, p.1.sameValueZero k = false) →
      mapGet m k = JsVal.undef) ∧
    (∀ (c : JsonCol) (k : JsKey), k.isFn = false →
      (∀ p ∈ c.store, ¬ p.1 = k.toStr) →
      jsonGet c k = .ok JsVal.null) ∧
    mapGet (mapOfPairs [(JsKey.num 1, JsVal.str "x"),
        (JsKey.num 2, JsVal.str "y")]) (JsKey.num 1) = JsVal.str "x" ∧
    mapGet (mapOfPairs [(JsKey.num 1, JsVal.str "x"),
        (JsKey.num 2, JsVal.str "y")]) (JsKey.str "1") = JsVal.undef := by
  refine ⟨?_, ?_, by decide, by decide⟩
  · intro m k h
    unfold mapGet
    rw [mapLookup_eq_none.mpr h]
    rfl
  · intro c k hfn habs
    unfold jsonGet
    rw [if_neg (by simp [hfn])]
    rw [if_pos]
    intro hany
    rcases List.any_eq_true.mp hany with ⟨p, hp, hpk⟩
    exact habs p hp (by simpa using hpk)

theorem witness_C2 :
    mapGet ⟨[]⟩ (JsKey.str "zz") = JsVal.undef ∧
    jsonGet ⟨[]⟩ (JsKey.str "zz") = .ok JsVal.null :=
  ⟨claim_C2_absent_get.1 ⟨[]⟩ (JsKey.str "zz") (by intro p hp; cases hp),
   claim_C2_absent_get.2.1 ⟨[]⟩ (JsKey.str "zz") (by decide)
     (by intro p hp; cases hp)⟩

/-- C3 fails as stated: `mapCollection.set` has no function-key check — a
function key is stored (and retrievable), it does not raise a
TypeError.  (`mapSet` is total: the embedded `super.set` has no failure
path.) -/
theorem counterexample_C3_fn_key_stored :
    mapGet (mapSet ⟨[]⟩ (JsKey.fn 0) (JsVal.str "v")) (JsKey.fn 0) =
      JsVal.str "v" ∧
    mapHas (mapSet ⟨[]⟩ (JsKey.fn 0) (JsVal.str "v")) (JsKey.fn 0) =
      true := by
  constructor <;> decide

/-- C3 (amended): `jsonCollection.set` throws a TypeError on a function
key and stores/overwrites any other key (returning the collection,
i.e. the updated state); `mapCollection.set` accepts every key —
function keys included — and stores/overwrites it. -/
theorem claim_C3_set_contract :
    (∀ (c : JsonCol) (i : Nat) (v : JsVal),
      jsonSet c (JsKey.fn i) v = .error .typeError) ∧
    (∀ (c : JsonCol) (k : JsKey) (v : JsVal), k.isFn = false →
      ∃ c₂, jsonSet c k v = .ok c₂ ∧
        lookupProp c₂.store (jsonStorageKey k) = some v) ∧
    (∀ (m : MapCol) (k : JsKey) (v : JsVal),
      mapLookup (mapSet m k v) k = some v) := by
  refine ⟨?_, ?_, ?_⟩
  · intro c i v
    rfl
  · intro c k v hfn
    refine ⟨⟨assignProp c.store (jsonStorageKey k) v⟩, ?_, ?_⟩
    · unfold jsonSet
      rw [if_neg (by simp [hfn])]
    · rw [lookupProp_assignProp, if_pos rfl]
  · intro m k v
    show mapLookup ⟨mapAssign m.entries k v⟩ k = some v
    rw [mapLookup_assign, if_pos (svz_refl k)]

theorem witness_C3 :
    jsonSet ⟨[]⟩ (JsKey.fn 7) (JsVal.num 1) = .error .typeError ∧
    (∃ c₂, jsonSet ⟨[]⟩ (JsKey.str "a") (JsVal.num 1) = .ok c₂ ∧
      lookupProp c₂.store (jsonStorageKey (JsKey.str "a")) =
        some (JsVal.num 1)) ∧
    mapLookup (mapSet ⟨[]⟩ JsKey.null (JsVal.num 2)) JsKey.null =
      some (JsVal.num 2) :=
  ⟨claim_C3_set_contract.1 ⟨[]⟩ 7 (JsVal.num 1),
   claim_C3_set_contract.2.1 ⟨[]⟩ (JsKey.str "a") (JsVal.num 1) (by decide),
   claim_C3_set_contract.2.2 ⟨[]⟩ JsKey.null (JsVal.num 2)⟩

/-- C4: in both implementations `sweep(() => true)` returns the previous
size and leaves size 0; in general `sweep(fn)` deletes exactly the
entries the callback accepts and returns size-before minus size-after. -/
theorem claim_C4_sweep :
    (∀ (c : JsonCol), JsonWf c →
      (jsonSweep c (fun _ _ => true)).1 = jsonSize c ∧
      jsonSize (jsonSweep c (fun _ _ => true)).2 = 0) ∧
    (∀ (m : MapCol), MapWf m →
      (mapSweep m (fun _ _ => true)).1 = mapSize m ∧
      mapSize (mapSweep m (fun _ _ => true)).2 = 0) ∧
    (∀ (c : JsonCol) (fn : JsVal → String → Bool), JsonWf c →
      (jsonSweep c fn).2.store = c.store.filter (fun p => !(fn p.2 p.1)) ∧
      (jsonSweep c fn).1 = jsonSize c - jsonSize (jsonSweep c fn).2) ∧
    (∀ (m : MapCol) (fn : JsVal → JsKey → Bool), MapWf m →
      (mapSweep m fn).2.entries =
        m.entries.filter (fun p => !(fn p.2 p.1)) ∧
      (mapSweep m fn).1 = mapSize m - mapSize (mapSweep m fn).2) := by
  refine ⟨?_, ?_, fun c fn h => jsonSweep_spec fn h,
    fun m fn h => mapSweep_spec fn h⟩
  · intro c h
    have hs := jsonSweep_spec (fun _ _ => true) h
    have hempty : (jsonSweep c (fun _ _ => true)).2.store = [] := by
      rw [hs.1]
      simp
    constructor
    · rw [hs.2]
      show jsonSize c - (jsonSweep c (fun _ _ => true)).2.store.length = _
      rw [hempty]
      rfl
    · show (jsonSweep c (fun _ _ => true)).2.store.length = 0
      rw [hempty]
      rfl
  · intro m h
    have hs := mapSweep_spec (fun _ _ => true) h
    have hempty : (mapSweep m (fun _ _ => true)).2.entries = [] := by
      rw [hs.1]
      simp
    constructor
    · rw [hs.2]
      show mapSize m - (mapSweep m (fun _ _ => true)).2.entries.length = _
      rw [hempty]
      rfl
    · show (mapSweep m (fun _ _ => true)).2.entries.length = 0
      rw [hempty]
      rfl

theorem witness_C4 :
    (jsonSweep ⟨[("a", JsVal.num 1), ("b", JsVal.str "x")]⟩
        (fun _ _ => true)).1 = 2 ∧
    jsonSize (jsonSweep ⟨[("a", JsVal.num 1), ("b", JsVal.str "x")]⟩
        (fun _ _ => true)).2 = 0 ∧
    (mapSweep ⟨[(JsKey.num 1, JsVal.str "x")]⟩ (fun _ _ => true)).1 = 1 ∧
    mapSize (mapSweep ⟨[(JsKey.num 1, JsVal.str "x")]⟩
        (fun _ _ => true)).2 = 0 :=
  have h1 := claim_C4_sweep.1 ⟨[("a", JsVal.num 1), ("b", JsVal.str "x")]⟩
    (by decide)
  have h2 := claim_C4_sweep.2.1 ⟨[(JsKey.num 1, JsVal.str "x")]⟩ (by decide)
  ⟨h1.1, h1.2, h2.1, h2.2⟩

/-- C9: the generic-iterable constructor branch of `mapCollection`
silently drops every entry with a `null` or `undefined` key; `clone`
goes through that branch, so a collection holding such a key (which
`set` happily stores) loses the entry when cloned. -/
theorem claim_C9_null_keys_dropped :
    (∀ (src : List (JsKey × JsVal)),
      mapHas (mapFromIterable src) JsKey.null = false ∧
      mapHas (mapFromIterable src) JsKey.undef = false) ∧
    (∀ (m : MapCol) (v : JsVal),
      mapHas (mapSet m JsKey.null v) JsKey.null = true ∧
      mapHas (mapClone (mapSet m JsKey.null v)) JsKey.null = false) ∧
    (∀ (m : MapCol) (v : JsVal),
      mapHas (mapSet m JsKey.undef v) JsKey.undef = true ∧
      mapHas (mapClone (mapSet m JsKey.undef v)) JsKey.undef = false) := by
  have hdrop : ∀ (src : List (JsKey × JsVal)),
      mapHas (mapFromIterable src) JsKey.null = false ∧
      mapHas (mapFromIterable src) JsKey.undef = false := by
    intro src
    constructor
    · apply mapHas_eq_false_of_none
      apply mapOfPairs_lookup_none
      intro p hp
      rcases List.mem_filter.mp hp with ⟨_, hcond⟩
      by_contra hc
      rw [Bool.not_eq_false, svz_null_iff] at hc
      simp [hc] at hcond
    · apply mapHas_eq_false_of_none
      apply mapOfPairs_lookup_none
      intro p hp
      rcases List.mem_filter.mp hp with ⟨_, hcond⟩
      by_contra hc
      rw [Bool.not_eq_false, svz_undef_iff] at hc
      simp [hc] at hcond
  refine ⟨hdrop, ?_, ?_⟩
  · intro m v
    constructor
    · apply mapHas_eq_true_of_some
      show mapLookup ⟨mapAssign m.entries JsKey.null v⟩ JsKey.null = some v
      rw [mapLookup_assign, if_pos (svz_refl _)]
    · exact (hdrop _).1
  · intro m v
    constructor
    · apply mapHas_eq_true_of_some
      show mapLookup ⟨mapAssign m.entries JsKey.undef v⟩ JsKey.undef = some v
      rw [mapLookup_assign, if_pos (svz_refl _)]
    · exact (hdrop _).2

/-- C10: in both implementations `filter` on an empty collection returns
the receiver object itself (`return this`, modeled by `FilterRes.self` —
the result aliases the original, so a later `set` through it is visible
through the original); on a non-empty collection it returns a freshly
created collection holding exactly the accepted entries. -/
theorem claim_C10_filter_alias :
    (∀ (c : JsonCol) (fn : JsVal → String → Bool), jsonSize c = 0 →
      jsonFilter c fn = .self) ∧
    (∀ (m : MapCol) (fn : JsVal → JsKey → Bool), mapSize m = 0 →
      mapFilter m fn = .self) ∧
    (∀ (c : JsonCol) (fn : JsVal → String → Bool), JsonWf c →
      ¬ jsonSize c = 0 →
      jsonFilter c fn =
        .fresh ⟨(jsonEntriesOrdered c).filter (fun p => fn p.2 p.1)⟩) ∧
    (∀ (m : MapCol) (fn : JsVal → JsKey → Bool), MapWf m →
      ¬ mapSize m = 0 →
      mapFilter m fn =
        .fresh ⟨m.entries.filter (fun p => fn p.2 p.1)⟩) := by
  refine ⟨?_, ?_, ?_, ?_⟩
  · intro c fn h
    unfold jsonFilter
    rw [if_pos h]
  · intro m fn h
    unfold mapFilter
    rw [if_pos h]
  · intro c fn hwf h
    unfold jsonFilter
    rw [if_neg h]
    rw [show (jsonEntriesOrdered c).foldl (fun acc p =>
        if fn p.2 p.1 then assignProp acc p.1 p.2 else acc) [] =
      [] ++ (jsonEntriesOrdered c).filter (fun p => fn p.2 p.1) from
      foldFilterAssign_disjoint (by intro p _ hmem; cases hmem)
        (entriesOrdered_nodup hwf)]
    rfl
  · intro m fn hwf h
    unfold mapFilter
    rw [if_neg h]
    rw [show m.entries.foldl (fun acc p =>
        if fn p.2 p.1 then mapAssign acc p.1 p.2 else acc) [] =
      [] ++ m.entries.filter (fun p => fn p.2 p.1) from
      foldFilterMapAssign_disjoint (by intro p _ q hq; cases hq) hwf]
    rfl

theorem witness_C10 :
    jsonFilter ⟨[]⟩ (fun _ _ => true) = .self ∧
    mapFilter ⟨[]⟩ (fun _ _ => true) = .self ∧
    jsonFilter ⟨[("a", JsVal.num 1)]⟩ (fun _ _ => false) =
      .fresh ⟨(jsonEntriesOrdered ⟨[("a", JsVal.num 1)]⟩).filter
        (fun p => (fun _ _ => false : JsVal → String → Bool) p.2 p.1)⟩ ∧
    mapFilter ⟨[(JsKey.num 1, JsVal.str "x")]⟩ (fun _ _ => true) =
      .fresh ⟨[(JsKey.num 1, JsVal.str "x")].filter
        (fun p => (fun _ _ => true : JsVal → JsKey → Bool) p.2 p.1)⟩ :=
  ⟨claim_C10_filter_alias.1 ⟨[]⟩ _ rfl,
   claim_C10_filter_alias.2.1 ⟨[]⟩ _ rfl,
   claim_C10_filter_alias.2.2.1 ⟨[("a", JsVal.num 1)]⟩ _ (by decide)
     (by decide),
   claim_C10_filter_alias.2.2.2 ⟨[(JsKey.num 1, JsVal.str "x")]⟩ _
     (by decide) (by decide)⟩

/-- C5 fails as stated for the map implementation: `concat` starts from
`this.clone()`, and the clone constructor drops `null`/`undefined` keys,
so `c3 = c1.concat(c2)` loses `c1`'s `null`-keyed entry even though `c1`
still has it. -/
theorem counterexample_C5_concat_drops_null :
    mapHas (mapSet ⟨[]⟩ JsKey.null (JsVal.str "v")) JsKey.null = true ∧
    mapConcat (mapSet ⟨[]⟩ JsKey.null (JsVal.str "v")) [JsArg.mapC ⟨[]⟩] =
      .ok ⟨[]⟩ := by
  constructor
  · decide
  · rfl

/-- C5 (amended): `concat` leaves its operands untouched (inherent in the
pure embedding: the result is a fresh state).  For `jsonCollection`,
`c₁.concat(c₂)` resolves every key to `c₂`'s value when `c₂` has it and
to `c₁`'s otherwise.  For `mapCollection` the same holds EXCEPT that
`c₁`'s entries with `null`/`undefined` keys are dropped by the internal
clone.  `concat` throws a TypeError when an argument is not recognized:
`jsonCollection.concat` accepts `Map`s and `jsonCollection`s,
`mapCollection.concat` accepts only `Map` instances (so a
`jsonCollection` argument is also rejected there). -/
theorem claim_C5_concat :
    (∀ (c₁ c₂ : JsonCol), JsonWf c₁ → JsonWf c₂ →
      ∃ c₃, jsonConcat c₁ [JsArg.jsonC c₂] = .ok c₃ ∧
        ∀ k, lookupProp c₃.store k =
          (lookupProp c₂.store k).orElse
            (fun _ => lookupProp c₁.store k)) ∧
    (∀ (m₁ m₂ : MapCol), MapWf m₁ → MapWf m₂ →
      ∃ m₃, mapConcat m₁ [JsArg.mapC m₂] = .ok m₃ ∧
        ∀ k, mapLookup m₃ k =
          (mapLookup m₂ k).orElse (fun _ =>
            if k.sameValueZero JsKey.null ∨ k.sameValueZero JsKey.undef
            then none else mapLookup m₁ k)) ∧
    (∀ (c : JsonCol) (v : JsVal),
      jsonConcat c [JsArg.prim v] = .error .typeError) ∧
    (∀ (m : MapCol) (v : JsVal),
      mapConcat m [JsArg.prim v] = .error .typeError) ∧
    (∀ (m : MapCol) (c : JsonCol),
      mapConcat m [JsArg.jsonC c] = .error .typeError) := by
  refine ⟨?_, ?_, fun c v => rfl, fun m v => rfl, fun m c => rfl⟩
  · intro c₁ c₂ h1 h2
    refine ⟨_, rfl, ?_⟩
    intro k
    show lookupProp ((jsonConcatEntries (JsArg.jsonC c₂)).foldl
        (fun st p => assignProp st p.1 p.2) (jsonClone c₁).store) k = _
    rw [show jsonConcatEntries (JsArg.jsonC c₂) = jsonEntriesOrdered c₂
        from rfl,
      foldAssign_lookup (entriesOrdered_nodup h2)]
    have hdef : Option.map Prod.snd ((jsonEntriesOrdered c₂).find?
        (fun p => p.1 = k)) = lookupProp (jsonEntriesOrdered c₂) k := rfl
    rw [hdef, lookupProp_entriesOrdered, jsonClone_eq h1]
    have hdef2 : lookupProp (⟨jsonEntriesOrdered c₁⟩ : JsonCol).store k =
        lookupProp (jsonEntriesOrdered c₁) k := rfl
    rw [hdef2, lookupProp_entriesOrdered]
  · intro m₁ m₂ h1 h2
    refine ⟨_, rfl, ?_⟩
    intro k
    show mapLookup ((mapConcatEntries (JsArg.mapC m₂)).foldl
        (fun mm p => mapSet mm p.1 p.2) (mapClone m₁)) k = _
    rw [show mapConcatEntries (JsArg.mapC m₂) = m₂.entries from rfl,
      foldMapSet_lookup h2]
    have hdef : Option.map Prod.snd (m₂.entries.find?
        (fun p => p.1.sameValueZero k)) = mapLookup m₂ k := rfl
    rw [hdef, mapClone_eq h1]
    by_cases hnull : k.sameValueZero JsKey.null = true ∨
        k.sameValueZero JsKey.undef = true
    · rw [if_pos hnull]
      have hnone : mapLookup ⟨m₁.entries.filter
          (fun p => ¬ p.1 = JsKey.null ∧ ¬ p.1 = JsKey.undef)⟩ k = none := by
        rw [mapLookup_eq_none]
        intro p hp
        rcases List.mem_filter.mp hp with ⟨_, hcond⟩
        by_contra hc
        rw [Bool.not_eq_false] at hc
        rcases hnull with hnull | hnull
        · have hpn : p.1.sameValueZero JsKey.null = true := svz_trans hc hnull
          rw [svz_null_iff] at hpn
          simp [hpn] at hcond
        · have hpn : p.1.sameValueZero JsKey.undef = true := svz_trans hc hnull
          rw [svz_undef_iff] at hpn
          simp [hpn] at hcond
      rw [hnone]
    · rw [if_neg hnull]
      push_neg at hnull
      rw [mapLookup_filter_nullundef (by simpa using hnull.1)
        (by simpa using hnull.2)]

theorem witness_C5 :
    (∃ c₃, jsonConcat ⟨[("a", JsVal.num 1), ("b", JsVal.num 2)]⟩
        [JsArg.jsonC ⟨[("b", JsVal.num 9)]⟩] = .ok c₃ ∧
      ∀ k, lookupProp c₃.store k =
        (lookupProp [("b", JsVal.num 9)] k).orElse
          (fun _ => lookupProp [("a", JsVal.num 1), ("b", JsVal.num 2)] k)) ∧
    (∃ m₃, mapConcat ⟨[(JsKey.num 1, JsVal.str "x")]⟩
        [JsArg.mapC ⟨[(JsKey.num 2, JsVal.str "y")]⟩] = .ok m₃ ∧
      ∀ k, mapLookup m₃ k =
        (mapLookup ⟨[(JsKey.num 2, JsVal.str "y")]⟩ k).orElse (fun _ =>
          if k.sameValueZero JsKey.null ∨ k.sameValueZero JsKey.undef
          then none else mapLookup ⟨[(JsKey.num 1, JsVal.str "x")]⟩ k)) :=
  ⟨claim_C5_concat.1 ⟨[("a", JsVal.num 1), ("b", JsVal.num 2)]⟩
      ⟨[("b", JsVal.num 9)]⟩ (by decide) (by decide),
   claim_C5_concat.2.1 ⟨[(JsKey.num 1, JsVal.str "x")]⟩
      ⟨[(JsKey.num 2, JsVal.str "y")]⟩ (by decide) (by decide)⟩

/-! ## C6 helper lemmas -/

theorem c6_json_empty (c : JsonCol) (i : Option Int) (h : jsonSize c = 0) :
    jsonFirstKey c i = .nullR ∧ jsonLastKey c i = .nullR ∧
    jsonFirst c i = .nullR ∧ jsonLast c i = .nullR := by
  have h1 : jsonFirstKey c i = .nullR := by
    unfold jsonFirstKey
    rw [if_pos h]
  have h2 : jsonLastKey c i = .nullR := by
    unfold jsonLastKey
    rw [if_pos h]
  refine ⟨h1, h2, ?_, ?_⟩
  · unfold jsonFirst
    rw [h1]
  · unfold jsonLast
    rw [h2]

theorem c6_map_empty (m : MapCol) (i : Option Int) (h : mapSize m = 0) :
    mapFirstKey m i = .nullR ∧ mapLastKey m i = .nullR ∧
    mapFirst m i = .nullR ∧ mapLast m i = .nullR := by
  have h1 : mapFirstKey m i = .nullR := by
    unfold mapFirstKey
    rw [if_pos h]
  have h2 : mapLastKey m i = .nullR := by
    unfold mapLastKey
    rw [if_pos h]
  refine ⟨h1, h2, ?_, ?_⟩
  · unfold mapFirst
    rw [h1]
  · unfold mapLast
    rw [h2]

theorem c6_json_over (c : JsonCol) (n : Int) (h1 : ¬ jsonSize c = 0)
    (h2 : (jsonSize c : Int) < n) :
    jsonFirstKey c (some n) = .undefR ∧ jsonLastKey c (some n) = .undefR ∧
    jsonFirst c (some n) = .nullR ∧ jsonLast c (some n) = .nullR := by
  have hgt : idxGt (some n) (jsonSize c) = true := by
    simp only [idxGt, gt_iff_lt, decide_eq_true_eq]
    omega
  have hk1 : jsonFirstKey c (some n) = .undefR := by
    unfold jsonFirstKey
    rw [if_neg h1, if_pos hgt]
  have hk2 : jsonLastKey c (some n) = .undefR := by
    unfold jsonLastKey
    rw [if_neg h1, if_pos hgt]
  refine ⟨hk1, hk2, ?_, ?_⟩
  · unfold jsonFirst
    rw [hk1]
  · unfold jsonLast
    rw [hk2]

theorem c6_map_over (m : MapCol) (n : Int) (h1 : ¬ mapSize m = 0)
    (h2 : (mapSize m : Int) < n) :
    mapFirstKey m (some n) = .undefR ∧ mapLastKey m (some n) = .undefR ∧
    mapFirst m (some n) = .nullR ∧ mapLast m (some n) = .nullR := by
  have hgt : idxGt (some n) (mapSize m) = true := by
    simp only [idxGt, gt_iff_lt, decide_eq_true_eq]
    omega
  have hk1 : mapFirstKey m (some n) = .undefR := by
    unfold mapFirstKey
    rw [if_neg h1, if_pos hgt]
  have hk2 : mapLastKey m (some n) = .undefR := by
    unfold mapLastKey
    rw [if_neg h1, if_pos hgt]
  refine ⟨hk1, hk2, ?_, ?_⟩
  · unfold mapFirst
    rw [hk1]
  · unfold mapLast
    rw [hk2]

theorem c6_json_noarg (c : JsonCol) (h1 : ¬ jsonSize c = 0) :
    jsonFirstKey c none = .one ((jsonKeys c).headD "") ∧
    jsonLastKey c none = .one ((jsonKeys c).reverse.headD "") ∧
    jsonFirst c none = (if (jsonKeys c).headD "" = "" then .nullR
      else .one (jsonGetStr c ((jsonKeys c).headD ""))) ∧
    jsonLast c none = (if (jsonKeys c).reverse.headD "" = "" then .nullR
      else .one (jsonGetStr c ((jsonKeys c).reverse.headD ""))) := by
  have hk1 : jsonFirstKey c none = .one ((jsonKeys c).headD "") := by
    unfold jsonFirstKey
    rw [if_neg h1, if_neg (by simp [idxGt]), if_pos (show idxSmall none = true from rfl)]
  have hk2 : jsonLastKey c none = .one ((jsonKeys c).reverse.headD "") := by
    unfold jsonLastKey
    rw [if_neg h1, if_neg (by simp [idxGt]), if_pos (show idxSmall none = true from rfl)]
  refine ⟨hk1, hk2, ?_, ?_⟩
  · unfold jsonFirst
    rw [hk1]
  · unfold jsonLast
    rw [hk2]

theorem c6_map_noarg (m : MapCol) (h1 : ¬ mapSize m = 0) :
    mapFirstKey m none = .one ((m.entries.map Prod.fst).headD .undef) ∧
    mapLastKey m none =
      .one ((m.entries.map Prod.fst).reverse.headD .undef) ∧
    mapFirst m none =
      (if ((m.entries.map Prod.fst).headD JsKey.undef).falsy then .nullR
        else .one (mapGet m ((m.entries.map Prod.fst).headD .undef))) ∧
    mapLast m none =
      (if ((m.entries.map Prod.fst).reverse.headD JsKey.undef).falsy
        then .nullR
        else .one (mapGet m
          ((m.entries.map Prod.fst).reverse.headD .undef))) := by
  have hk1 : mapFirstKey m none =
      .one ((m.entries.map Prod.fst).headD .undef) := by
    unfold mapFirstKey
    rw [if_neg h1, if_neg (by simp [idxGt]), if_pos (show idxSmall none = true from rfl)]
  have hk2 : mapLastKey m none =
      .one ((m.entries.map Prod.fst).reverse.headD .undef) := by
    unfold mapLastKey
    rw [if_neg h1, if_neg (by simp [idxGt]), if_pos (show idxSmall none = true from rfl)]
  refine ⟨hk1, hk2, ?_, ?_⟩
  · unfold mapFirst
    rw [hk1]
  · unfold mapLast
    rw [hk2]

theorem c6_json_many (c : JsonCol) (n : Nat) (h2 : 2 ≤ n)
    (h3 : n ≤ jsonSize c) :
    jsonFirstKey c (some (n : Int)) = .many ((jsonKeys c).take n) ∧
    ((jsonKeys c).take n).length = n ∧
    jsonLastKey c (some (n : Int)) =
      .many ((jsonKeys c).reverse.take n) ∧
    ((jsonKeys c).reverse.take n).length = n ∧
    jsonFirst c (some (n : Int)) =
      .many (((jsonKeys c).take n).map (jsonGetStr c)) ∧
    jsonLast c (some (n : Int)) =
      .many (((jsonKeys c).reverse.take n).map (jsonGetStr c)) := by
  have h1 : ¬ jsonSize c = 0 := by omega
  have hgt : ¬ idxGt (some (n : Int)) (jsonSize c) = true := by
    simp only [idxGt, gt_iff_lt, decide_eq_true_eq]
    omega
  have hsm : ¬ idxSmall (some (n : Int)) = true := by
    simp only [idxSmall, decide_eq_true_eq]
    omega
  have htn : ((some (n : Int)).getD 0).toNat = n := by simp
  have hk1 : jsonFirstKey c (some (n : Int)) =
      .many ((jsonKeys c).take n) := by
    unfold jsonFirstKey
    rw [if_neg h1, if_neg hgt, if_neg hsm, htn]
  have hk2 : jsonLastKey c (some (n : Int)) =
      .many ((jsonKeys c).reverse.take n) := by
    unfold jsonLastKey
    rw [if_neg h1, if_neg hgt, if_neg hsm, htn]
  have h3s : n ≤ c.store.length := h3
  have hlen : ((jsonKeys c).take n).length = n := by
    rw [List.length_take, jsonKeys_length]
    omega
  have hlenr : ((jsonKeys c).reverse.take n).length = n := by
    rw [List.length_take, List.length_reverse, jsonKeys_length]
    omega
  refine ⟨hk1, hlen, hk2, hlenr, ?_, ?_⟩
  · unfold jsonFirst
    rw [hk1]
  · unfold jsonLast
    rw [hk2]

theorem c6_map_many (m : MapCol) (n : Nat) (h2 : 2 ≤ n)
    (h3 : n ≤ mapSize m) :
    mapFirstKey m (some (n : Int)) =
      .many ((m.entries.map Prod.fst).take n) ∧
    ((m.entries.map Prod.fst).take n).length = n ∧
    mapLastKey m (some (n : Int)) =
      .many ((m.entries.map Prod.fst).reverse.take n) ∧
    ((m.entries.map Prod.fst).reverse.take n).length = n ∧
    mapFirst m (some (n : Int)) =
      .many (((m.entries.map Prod.fst).take n).map (mapGet m)) ∧
    mapLast m (some (n : Int)) =
      .many (((m.entries.map Prod.fst).reverse.take n).map (mapGet m)) := by
  have h1 : ¬ mapSize m = 0 := by omega
  have hgt : ¬ idxGt (some (n : Int)) (mapSize m) = true := by
    simp only [idxGt, gt_iff_lt, decide_eq_true_eq]
    omega
  have hsm : ¬ idxSmall (some (n : Int)) = true := by
    simp only [idxSmall, decide_eq_true_eq]
    omega
  have htn : ((some (n : Int)).getD 0).toNat = n := by simp
  have hk1 : mapFirstKey m (some (n : Int)) =
      .many ((m.entries.map Prod.fst).take n) := by
    unfold mapFirstKey
    rw [if_neg h1, if_neg hgt, if_neg hsm, htn]
  have hk2 : mapLastKey m (some (n : Int)) =
      .many ((m.entries.map Prod.fst).reverse.take n) := by
    unfold mapLastKey
    rw [if_neg h1, if_neg hgt, if_neg hsm, htn]
  have h3s : n ≤ m.entries.length := h3
  have hlen : ((m.entries.map Prod.fst).take n).length = n := by
    rw [List.length_take, List.length_map]
    omega
  have hlenr : ((m.entries.map Prod.fst).reverse.take n).length = n := by
    rw [List.length_take, List.length_reverse, List.length_map]
    omega
  refine ⟨hk1, hlen, hk2, hlenr, ?_, ?_⟩
  · unfold mapFirst
    rw [hk1]
  · unfold mapLast
    rw [hk2]

/-- C6 fails as stated: on a one-entry collection, `firstKey(5)` does
return `undefined`, but `first(5)` returns `null` — the
`if (!keys) return null` in `first` collapses the `undefined` coming
from `firstKey` into `null`. -/
theorem counterexample_C6_first_over_size :
    jsonFirstKey ⟨[("a", JsVal.str "x")]⟩ (some 5) = Res.undefR ∧
    jsonFirst ⟨[("a", JsVal.str "x")]⟩ (some 5) = Res.nullR ∧
    ¬ (Res.nullR : Res JsVal) = Res.undefR := by
  refine ⟨?_, ?_, by decide⟩ <;> decide

/-- C6 (amended): `firstKey`/`lastKey`/`first`/`last` return `null` on an
empty collection; with no argument they return the single key/value at
position 0 (resp. the last position), except that `first`/`last` return
`null` when that single key is falsy (the empty string; for the map
implementation also `0`, `false`, `null`, `undefined`); with `2 ≤ n ≤
size` they return an array of exactly `n` keys/values from the
respective end; and when `n` exceeds the size of a non-empty collection,
`firstKey`/`lastKey` return `undefined` but `first`/`last` return `null`
(not `undefined`). -/
theorem claim_C6_positional :
    (∀ (c : JsonCol) (i : Option Int), jsonSize c = 0 →
      jsonFirstKey c i = .nullR ∧ jsonLastKey c i = .nullR ∧
      jsonFirst c i = .nullR ∧ jsonLast c i = .nullR) ∧
    (∀ (m : MapCol) (i : Option Int), mapSize m = 0 →
      mapFirstKey m i = .nullR ∧ mapLastKey m i = .nullR ∧
      mapFirst m i = .nullR ∧ mapLast m i = .nullR) ∧
    (∀ (c : JsonCol) (n : Int), ¬ jsonSize c = 0 → (jsonSize c : Int) < n →
      jsonFirstKey c (some n) = .undefR ∧ jsonLastKey c (some n) = .undefR ∧
      jsonFirst c (some n) = .nullR ∧ jsonLast c (some n) = .nullR) ∧
    (∀ (m : MapCol) (n : Int), ¬ mapSize m = 0 → (mapSize m : Int) < n →
      mapFirstKey m (some n) = .undefR ∧ mapLastKey m (some n) = .undefR ∧
      mapFirst m (some n) = .nullR ∧ mapLast m (some n) = .nullR) ∧
    (∀ (c : JsonCol), ¬ jsonSize c = 0 →
      jsonFirstKey c none = .one ((jsonKeys c).headD "") ∧
      jsonFirst c none = (if (jsonKeys c).headD "" = "" then .nullR
        else .one (jsonGetStr c ((jsonKeys c).headD "")))) ∧
    (∀ (m : MapCol), ¬ mapSize m = 0 →
      mapFirstKey m none = .one ((m.entries.map Prod.fst).headD .undef) ∧
      mapFirst m none =
        (if ((m.entries.map Prod.fst).headD JsKey.undef).falsy then .nullR
          else .one (mapGet m ((m.entries.map Prod.fst).headD .undef)))) ∧
    (∀ (c : JsonCol) (n : Nat), 2 ≤ n → n ≤ jsonSize c →
      jsonFirstKey c (some (n : Int)) = .many ((jsonKeys c).take n) ∧
      ((jsonKeys c).take n).length = n ∧
      jsonFirst c (some (n : Int)) =
        .many (((jsonKeys c).take n).map (jsonGetStr c)) ∧
      jsonLast c (some (n : Int)) =
        .many (((jsonKeys c).reverse.take n).map (jsonGetStr c))) ∧
    (∀ (m : MapCol) (n : Nat), 2 ≤ n → n ≤ mapSize m →
      mapFirstKey m (some (n : Int)) =
        .many ((m.entries.map Prod.fst).take n) ∧
      ((m.entries.map Prod.fst).take n).length = n ∧
      mapFirst m (some (n : Int)) =
        .many (((m.entries.map Prod.fst).take n).map (mapGet m)) ∧
      mapLast m (some (n : Int)) =
        .many (((m.entries.map Prod.fst).reverse.take n).map (mapGet m))) := by
  refine ⟨c6_json_empty, c6_map_empty, c6_json_over, c6_map_over,
    ?_, ?_, ?_, ?_⟩
  · intro c h
    have hh := c6_json_noarg c h
    exact ⟨hh.1, hh.2.2.1⟩
  · intro m h
    have hh := c6_map_noarg m h
    exact ⟨hh.1, hh.2.2.1⟩
  · intro c n h2 h3
    have hh := c6_json_many c n h2 h3
    exact ⟨hh.1, hh.2.1, hh.2.2.2.2.1, hh.2.2.2.2.2⟩
  · intro m n h2 h3
    have hh := c6_map_many m n h2 h3
    exact ⟨hh.1, hh.2.1, hh.2.2.2.2.1, hh.2.2.2.2.2⟩

theorem witness_C6 :
    (jsonFirstKey ⟨[]⟩ none = .nullR) ∧
    (mapFirst ⟨[]⟩ (some 1) = .nullR) ∧
    (jsonFirstKey ⟨[("a", JsVal.num 1)]⟩ (some 4) = .undefR ∧
      jsonFirst ⟨[("a", JsVal.num 1)]⟩ (some 4) = .nullR) ∧
    (mapLastKey ⟨[(JsKey.num 1, JsVal.str "x")]⟩ (some 4) = .undefR ∧
      mapLast ⟨[(JsKey.num 1, JsVal.str "x")]⟩ (some 4) = .nullR) ∧
    (jsonFirstKey ⟨[("a", JsVal.num 1)]⟩ none =
      .one ((jsonKeys ⟨[("a", JsVal.num 1)]⟩).headD "")) ∧
    (mapFirstKey ⟨[(JsKey.num 1, JsVal.str "x")]⟩ none =
      .one (([(JsKey.num 1, JsVal.str "x")].map Prod.fst).headD .undef)) ∧
    (jsonFirstKey ⟨[("a", JsVal.num 1), ("b", JsVal.num 2)]⟩ (some (2 : Nat)) =
      .many ((jsonKeys ⟨[("a", JsVal.num 1), ("b", JsVal.num 2)]⟩).take 2)) ∧
    (mapFirstKey ⟨[(JsKey.num 1, JsVal.str "x"),
        (JsKey.num 2, JsVal.str "y")]⟩ (some (2 : Nat)) =
      .many (([(JsKey.num 1, JsVal.str "x"),
        (JsKey.num 2, JsVal.str "y")].map Prod.fst).take 2)) :=
  ⟨(claim_C6_positional.1 ⟨[]⟩ none rfl).1,
   (claim_C6_positional.2.1 ⟨[]⟩ (some 1) rfl).2.2.1,
   ⟨(claim_C6_positional.2.2.1 ⟨[("a", JsVal.num 1)]⟩ 4 (by decide)
       (by decide)).1,
    (claim_C6_positional.2.2.1 ⟨[("a", JsVal.num 1)]⟩ 4 (by decide)
       (by decide)).2.2.1⟩,
   ⟨(claim_C6_positional.2.2.2.1 ⟨[(JsKey.num 1, JsVal.str "x")]⟩ 4
       (by decide) (by decide)).2.1,
    (claim_C6_positional.2.2.2.1 ⟨[(JsKey.num 1, JsVal.str "x")]⟩ 4
       (by decide) (by decide)).2.2.2⟩,
   (claim_C6_positional.2.2.2.2.1 ⟨[("a", JsVal.num 1)]⟩ (by decide)).1,
   (claim_C6_positional.2.2.2.2.2.1 ⟨[(JsKey.num 1, JsVal.str "x")]⟩
      (by decide)).1,
   (claim_C6_positional.2.2.2.2.2.2.1
      ⟨[("a", JsVal.num 1), ("b", JsVal.num 2)]⟩ 2 (by decide)
      (by decide)).1,
   (claim_C6_positional.2.2.2.2.2.2.2 ⟨[(JsKey.num 1, JsVal.str "x"),
        (JsKey.num 2, JsVal.str "y")]⟩ 2 (by decide) (by decide)).1⟩

/-! ## C8: randomKey -/

theorem floor_mul_bounds {r : ℚ} {len : Nat} (h0 : 0 ≤ r) (h1 : r < 1)
    (hlen : 0 < len) :
    0 ≤ ⌊r * (len : ℚ)⌋ ∧ (⌊r * (len : ℚ)⌋).toNat < len := by
  have hnn : (0 : ℚ) ≤ r * (len : ℚ) := by positivity
  have hf0 : 0 ≤ ⌊r * (len : ℚ)⌋ := Int.floor_nonneg.mpr hnn
  have hlt : r * (len : ℚ) < (len : ℚ) := by
    calc r * (len : ℚ) < 1 * (len : ℚ) := by
          apply mul_lt_mul_of_pos_right h1
          exact_mod_cast hlen
    _ = (len : ℚ) := one_mul _
  have hflt : ⌊r * (len : ℚ)⌋ < (len : Int) := by
    rw [Int.floor_lt]
    exact_mod_cast hlt
  exact ⟨hf0, by omega⟩

/-- The `typeof`-against-`"Number"` check of `randomKey` can never pass
(`typeof` yields the lowercase `"number"`, and the second literal even has
a trailing space), so the whole-range branch is always taken. -/
theorem randomKeyAux_eq {α : Type} [Inhabited α] (arr : List α)
    (lo hi : Option Int) (r : ℚ) (hlen : ¬ arr.length = 0) (h0 : 0 ≤ r)
    (h1 : r < 1) :
    randomKeyAux arr lo hi r =
      .one (arr.getD (⌊r * (arr.length : ℚ)⌋).toNat default) := by
  have hcond : ¬ typeofOptNum lo = "Number" ∨
      ¬ typeofOptNum hi = "Number " := by
    left
    cases lo with
    | none => decide
    | some v =>
      show ¬ "number" = "Number"
      decide
  obtain ⟨hf0, hflt⟩ :=
    floor_mul_bounds h0 h1 (Nat.pos_of_ne_zero hlen)
  unfold randomKeyAux
  rw [if_neg hlen, if_pos hcond]
  unfold jsArrGet
  rw [if_pos ⟨hf0, hflt⟩]

/-- C8 fails as stated: on a three-key collection with the window
`[0, 0]` supplied (which per the claim confines the pick to the key at
index 0, `"a"`), the draw `r = 9/10` still yields `"c"` — the bounds are
ignored because the `typeof` check comparing against `"Number"` /
`"Number "` never passes. -/
theorem counterexample_C8_bounds_ignored :
    jsonRandomKey ⟨[("a", JsVal.num 1), ("b", JsVal.num 2),
        ("c", JsVal.num 3)]⟩ (some 0) (some 0) (9/10) = Res.one "c" ∧
    ¬ (Res.one "c" : Res String) = Res.one "a" := by
  constructor
  · have hkeys : jsonKeys ⟨[("a", JsVal.num 1), ("b", JsVal.num 2),
        ("c", JsVal.num 3)]⟩ = ["a", "b", "c"] := by decide
    have h := randomKeyAux_eq ["a", "b", "c"] (some 0) (some 0) (9/10)
      (by decide) (by norm_num) (by norm_num)
    have hfloor : (⌊(9/10 : ℚ) * ((["a", "b", "c"].length : Nat) : ℚ)⌋)
        = 2 := by
      norm_num [Int.floor_eq_iff]
    unfold jsonRandomKey
    rw [if_neg (by decide), hkeys, h, hfloor]
    rfl
  · decide

/-- C8 (amended): `randomKey` returns `null` on the empty collection and
otherwise returns the key at index `⌊r·size⌋` of the full key array — a
uniform pick over ALL keys.  The `startIndex`/`endIndex` window is
ignored: the branch that would use it is dead code (its `typeof` guard
compares against `"Number"` and `"Number "`, which `typeof` never
produces), so the call behaves exactly like the unbounded one. -/
theorem claim_C8_random :
    (∀ (c : JsonCol) (lo hi : Option Int) (r : ℚ), jsonSize c = 0 →
      jsonRandomKey c lo hi r = .nullR) ∧
    (∀ (m : MapCol) (lo hi : Option Int) (r : ℚ), mapSize m = 0 →
      mapRandomKey m lo hi r = .nullR) ∧
    (∀ (c : JsonCol) (lo hi : Option Int) (r : ℚ), ¬ jsonSize c = 0 →
      0 ≤ r → r < 1 →
      jsonRandomKey c lo hi r =
        .one ((jsonKeys c).getD (⌊r * (jsonSize c : ℚ)⌋).toNat default) ∧
      jsonRandomKey c lo hi r = jsonRandomKey c none none r) ∧
    (∀ (m : MapCol) (lo hi : Option Int) (r : ℚ), ¬ mapSize m = 0 →
      0 ≤ r → r < 1 →
      mapRandomKey m lo hi r =
        .one ((m.entries.map Prod.fst).getD
          (⌊r * (mapSize m : ℚ)⌋).toNat default) ∧
      mapRandomKey m lo hi r = mapRandomKey m none none r) := by
  refine ⟨?_, ?_, ?_, ?_⟩
  · intro c lo hi r h
    unfold jsonRandomKey
    rw [if_pos h]
  · intro m lo hi r h
    unfold mapRandomKey
    rw [if_pos h]
  · intro c lo hi r h h0 h1
    have hlen : ¬ (jsonKeys c).length = 0 := by
      rw [jsonKeys_length]
      exact h
    have hsz : ((jsonKeys c).length : ℚ) = ((jsonSize c : Nat) : ℚ) := by
      rw [jsonKeys_length]
      rfl
    have he := randomKeyAux_eq (jsonKeys c) lo hi r hlen h0 h1
    have he2 := randomKeyAux_eq (jsonKeys c) none none r hlen h0 h1
    constructor
    · unfold jsonRandomKey
      rw [if_neg h, he, hsz]
    · unfold jsonRandomKey
      rw [if_neg h, if_neg h, he, he2]
  · intro m lo hi r h h0 h1
    have hlen : ¬ (m.entries.map Prod.fst).length = 0 := by
      rw [List.length_map]
      exact h
    have hsz : ((m.entries.map Prod.fst).length : ℚ) =
        ((mapSize m : Nat) : ℚ) := by
      rw [List.length_map]
      rfl
    have he := randomKeyAux_eq (m.entries.map Prod.fst) lo hi r hlen h0 h1
    have he2 := randomKeyAux_eq (m.entries.map Prod.fst) none none r hlen
      h0 h1
    constructor
    · unfold mapRandomKey
      rw [if_neg h, he, hsz]
    · unfold mapRandomKey
      rw [if_neg h, if_neg h, he, he2]

theorem witness_C8 :
    jsonRandomKey ⟨[]⟩ (some 2) (some 6) (1/2) = .nullR ∧
    mapRandomKey ⟨[]⟩ none none (1/2) = .nullR ∧
    jsonRandomKey ⟨[("a", JsVal.num 1)]⟩ (some 0) (some 0) (1/2) =
      .one ((jsonKeys ⟨[("a", JsVal.num 1)]⟩).getD
        (⌊(1/2 : ℚ) * ((jsonSize ⟨[("a", JsVal.num 1)]⟩ : Nat) : ℚ)⌋).toNat
        default) ∧
    mapRandomKey ⟨[(JsKey.num 1, JsVal.str "x")]⟩ (some 0) (some 0) (1/2) =
      mapRandomKey ⟨[(JsKey.num 1, JsVal.str "x")]⟩ none none (1/2) :=
  ⟨claim_C8_random.1 ⟨[]⟩ (some 2) (some 6) (1/2) rfl,
   claim_C8_random.2.1 ⟨[]⟩ none none (1/2) rfl,
   (claim_C8_random.2.2.1 ⟨[("a", JsVal.num 1)]⟩ (some 0) (some 0) (1/2)
      (by decide) (by norm_num) (by norm_num)).1,
   (claim_C8_random.2.2.2 ⟨[(JsKey.num 1, JsVal.str "x")]⟩ (some 0)
      (some 0) (1/2) (by decide) (by norm_num) (by norm_num)).2⟩

/-! ## C7: decimal digits -/

theorem digitChar_toNat {d : Nat} (h : d < 10) :
    (digitChar d).toNat = 48 + d := by
  interval_cases d <;> rfl

theorem digitChar_isDigit {d : Nat} (h : d < 10) :
    (digitChar d).isDigit = true := by
  interval_cases d <;> rfl

theorem dtn_append (ds : List Char) (c : Char) :
    digitsToNat (ds ++ [c]) = 10 * digitsToNat ds + (c.toNat - 48) := by
  unfold digitsToNat
  rw [List.foldl_append]
  simp [Nat.mul_comm]

theorem natChars_ne_nil (n : Nat) : ¬ natChars n = [] := by
  unfold natChars
  by_cases h : n < 10
  · rw [dif_pos h]
    simp
  · rw [dif_neg h]
    simp

theorem natChars_all_digit (n : Nat) :
    ∀ c ∈ natChars n, c.isDigit = true := by
  induction n using Nat.strong_induction_on with
  | _ n ih =>
    unfold natChars
    by_cases h : n < 10
    · rw [dif_pos h]
      intro c hc
      rw [List.mem_singleton] at hc
      subst hc
      exact digitChar_isDigit h
    · rw [dif_neg h]
      intro c hc
      rcases List.mem_append.mp hc with hc | hc
      · exact ih (n / 10) (Nat.div_lt_self (by omega) (by omega)) c hc
      · rw [List.mem_singleton] at hc
        subst hc
        exact digitChar_isDigit (Nat.mod_lt _ (by omega))

theorem digitsToNat_natChars (n : Nat) :
    digitsToNat (natChars n) = n := by
  induction n using Nat.strong_induction_on with
  | _ n ih =>
    unfold natChars
    by_cases h : n < 10
    · rw [dif_pos h]
      show digitsToNat ([] ++ [digitChar n]) = n
      rw [dtn_append, digitChar_toNat h]
      simp [digitsToNat]
    · rw [dif_neg h]
      rw [dtn_append, ih (n / 10) (Nat.div_lt_self (by omega) (by omega)),
        digitChar_toNat (Nat.mod_lt _ (by omega))]
      omega

/-- `headNotDigit l`: the input does not continue with a digit, so a
maximal-munch number parse stops exactly there. -/
def headNotDigit : List Char → Prop
  | [] => True
  | c :: _ => ¬ c.isDigit = true

theorem splitDigits_append {ds rest : List Char}
    (hds : ∀ c ∈ ds, c.isDigit = true) (hrest : headNotDigit rest) :
    splitDigits (ds ++ rest) = (ds, rest) := by
  induction ds with
  | nil =>
    rw [List.nil_append]
    cases rest with
    | nil => rfl
    | cons c l =>
      unfold splitDigits
      rw [if_neg hrest]
  | cons c ds ih =>
    rw [List.cons_append]
    unfold splitDigits
    rw [if_pos (hds c (List.mem_cons_self c ds)),
      ih (fun d hd => hds d (List.mem_cons_of_mem c hd))]

theorem isDigit_ne_specials {c : Char} (h : c.isDigit = true) :
    ¬ c = dquoteC ∧ ¬ c = '-' ∧ ¬ c = 't' ∧ ¬ c = 'f' ∧ ¬ c = 'n' := by
  refine ⟨?_, ?_, ?_, ?_, ?_⟩ <;>
    · intro hc
      rw [hc] at h
      exact absurd h (by decide)

theorem take_cons_ne {c d : Char} {l ds : List Char} {k : Nat}
    (h : ¬ c = d) : ¬ (c :: l).take (k + 1) = d :: ds := by
  rw [List.take_succ_cons]
  intro hc
  exact h (List.head_eq_of_cons_eq hc)

/-! ## C7: string-literal round trip -/

theorem parseStrBody_close (rest : List Char) :
    parseStrBody (dquoteC :: rest) = some ([], rest) := by
  unfold parseStrBody
  rw [if_pos rfl]

theorem parseStrBody_cons_esc (e d : Char) (l : List Char)
    (hd : unescChar e = some d) :
    parseStrBody (bslashC :: e :: l) =
      (parseStrBody l).map (fun p => (d :: p.1, p.2)) := by
  conv_lhs => unfold parseStrBody
  rw [if_neg (by decide), if_pos rfl]
  show (match unescChar e with
    | some d => Option.map (fun p : List Char × List Char =>
        (d :: p.1, p.2)) (parseStrBody l)
    | none => none) = _
  rw [hd]

theorem parseStrBody_cons_plain (c : Char) (l : List Char)
    (h1 : ¬ c = dquoteC) (h2 : ¬ c = bslashC) :
    parseStrBody (c :: l) =
      (parseStrBody l).map (fun p => (c :: p.1, p.2)) := by
  conv_lhs => unfold parseStrBody
  rw [if_neg h1, if_neg h2]

theorem parseStrBody_roundtrip {s : List Char} (rest : List Char)
    (hs : ∀ c ∈ s, jsonSafeChar c = true) :
    parseStrBody (s.flatMap escChar ++ dquoteC :: rest) =
      some (s, rest) := by
  induction s with
  | nil =>
    rw [List.flatMap_nil, List.nil_append]
    exact parseStrBody_close rest
  | cons c s ih =>
    have ihs := ih (fun d hd => hs d (List.mem_cons_of_mem c hd))
    rw [List.flatMap_cons, List.append_assoc]
    by_cases h1 : c = dquoteC
    · subst h1
      rw [show escChar dquoteC = [bslashC, dquoteC] from rfl,
        List.cons_append, List.cons_append, List.nil_append,
        parseStrBody_cons_esc _ _ _
          (show unescChar dquoteC = some dquoteC from rfl),
        ihs]
      rfl
    · by_cases h2 : c = bslashC
      · subst h2
        rw [show escChar bslashC = [bslashC, bslashC] from rfl,
          List.cons_append, List.cons_append, List.nil_append,
          parseStrBody_cons_esc _ _ _
            (show unescChar bslashC = some bslashC from rfl),
          ihs]
        rfl
      · by_cases h3 : c = bsC
        · subst h3
          rw [show escChar bsC = [bslashC, 'b'] from rfl,
            List.cons_append, List.cons_append, List.nil_append,
            parseStrBody_cons_esc _ _ _
              (show unescChar 'b' = some bsC from rfl),
            ihs]
          rfl
        · by_cases h4 : c = tabC
          · subst h4
            rw [show escChar tabC = [bslashC, 't'] from rfl,
              List.cons_append, List.cons_append, List.nil_append,
              parseStrBody_cons_esc _ _ _
                (show unescChar 't' = some tabC from rfl),
              ihs]
            rfl
          · by_cases h5 : c = nlC
            · subst h5
              rw [show escChar nlC = [bslashC, 'n'] from rfl,
                List.cons_append, List.cons_append, List.nil_append,
                parseStrBody_cons_esc _ _ _
                  (show unescChar 'n' = some nlC from rfl),
                ihs]
              rfl
            · by_cases h6 : c = ffC
              · subst h6
                rw [show escChar ffC = [bslashC, 'f'] from rfl,
                  List.cons_append, List.cons_append, List.nil_append,
                  parseStrBody_cons_esc _ _ _
                    (show unescChar 'f' = some ffC from rfl),
                  ihs]
                rfl
              · by_cases h7 : c = crC
                · subst h7
                  rw [show escChar crC = [bslashC, 'r'] from rfl,
                    List.cons_append, List.cons_append, List.nil_append,
                    parseStrBody_cons_esc _ _ _
                      (show unescChar 'r' = some crC from rfl),
                    ihs]
                  rfl
                · have hesc : escChar c = [c] := by
                    unfold escChar
                    rw [if_neg h1, if_neg h2, if_neg h3, if_neg h4,
                      if_neg h5, if_neg h6, if_neg h7]
                  rw [hesc, List.cons_append, List.nil_append,
                    parseStrBody_cons_plain c _ h1 h2, ihs]
                  rfl

/-! ## C7: value round trip -/

/-- Values inside the verified serialization domain: any primitive except
`undefined` (which `JSON.stringify` drops), with strings drawn from the
safe character set. -/
def jvalOk : JsVal → Bool
  | .str s => jsonSafeStr s
  | .undef => false
  | _ => true

theorem string_mk_data (s : String) : String.mk s.data = s := rfl

theorem natChars_cons (m : Nat) :
    ∃ c cs, natChars m = c :: cs := by
  rcases h : natChars m with _ | ⟨c, cs⟩
  · exact absurd h (natChars_ne_nil m)
  · exact ⟨c, cs, rfl⟩

theorem parseJVal_cons (c : Char) (l : List Char) :
    parseJVal (c :: l) =
      (if c = dquoteC then
        (parseStrBody l).map (fun p => (JsVal.str (String.mk p.1), p.2))
      else if (c :: l).take 4 = "true".data then
        some (.bool true, (c :: l).drop 4)
      else if (c :: l).take 5 = "false".data then
        some (.bool false, (c :: l).drop 5)
      else if (c :: l).take 4 = "null".data then
        some (.null, (c :: l).drop 4)
      else if c = '-' then
        let p := splitDigits l
        if p.1.isEmpty then none
        else some (.num (-(digitsToNat p.1 : Int)), p.2)
      else if c.isDigit then
        let p := splitDigits (c :: l)
        some (.num (digitsToNat p.1), p.2)
      else none) := rfl

theorem parseJVal_roundtrip (v : JsVal) (rest : List Char)
    (hok : jvalOk v = true) (hrest : headNotDigit rest) :
    parseJVal (jvalChars v ++ rest) = some (v, rest) := by
  cases v with
  | str s =>
    show parseJVal (quotedChars s ++ rest) = _
    rw [show quotedChars s ++ rest =
      dquoteC :: (s.data.flatMap escChar ++ dquoteC :: rest) by
        unfold quotedChars
        simp]
    rw [parseJVal_cons,
      if_pos rfl,
      parseStrBody_roundtrip rest (fun c hc => by
        have hsafe : jsonSafeStr s = true := hok
        unfold jsonSafeStr at hsafe
        exact List.all_eq_true.mp hsafe c hc)]
    rw [show Option.map (fun p : List Char × List Char =>
        (JsVal.str (String.mk p.1), p.2)) (some (s.data, rest)) =
      some (JsVal.str (String.mk s.data), rest) from rfl,
      string_mk_data]
  | num n =>
    show parseJVal (intChars n ++ rest) = _
    by_cases hn : n < 0
    · rw [show intChars n = '-' :: natChars (-n).toNat from by
        unfold intChars
        rw [if_pos hn]]
      obtain ⟨c, cs, hcs⟩ := natChars_cons (-n).toNat
      have hdig : ∀ d ∈ c :: cs, d.isDigit = true := by
        rw [← hcs]
        exact natChars_all_digit _
      rw [List.cons_append]
      rw [parseJVal_cons,
        if_neg (by decide),
        if_neg (take_cons_ne (by decide)),
        if_neg (take_cons_ne (by decide)),
        if_neg (take_cons_ne (by decide)),
        if_pos rfl, hcs, splitDigits_append hdig hrest]
      have hne : (c :: cs).isEmpty = false := rfl
      simp only [hne, Bool.false_eq_true, if_false]
      rw [← hcs, digitsToNat_natChars]
      have : -(((-n).toNat : Nat) : Int) = n := by omega
      rw [this]
    · rw [show intChars n = natChars n.toNat from by
        unfold intChars
        rw [if_neg hn]]
      obtain ⟨c, cs, hcs⟩ := natChars_cons n.toNat
      have hdig : ∀ d ∈ c :: cs, d.isDigit = true := by
        rw [← hcs]
        exact natChars_all_digit _
      have hcd : c.isDigit = true := hdig c (List.mem_cons_self c cs)
      obtain ⟨hq, hm, ht, hf, hnu⟩ := isDigit_ne_specials hcd
      rw [hcs, List.cons_append]
      rw [parseJVal_cons,
        if_neg hq,
        if_neg (take_cons_ne ht),
        if_neg (take_cons_ne hf),
        if_neg (take_cons_ne hnu),
        if_neg hm, if_pos hcd,
        show (c :: (cs ++ rest)) = (c :: cs) ++ rest from rfl,
        splitDigits_append hdig hrest]
      rw [← hcs]
      show some (JsVal.num ((digitsToNat (natChars n.toNat) : Nat) : Int),
        rest) = _
      rw [digitsToNat_natChars]
      have hnn : ((n.toNat : Nat) : Int) = n := by omega
      rw [hnn]
  | bool b =>
    cases b with
    | true =>
      show parseJVal ("true".data ++ rest) = _
      rw [show "true".data ++ rest = 't' :: ('r' :: 'u' :: 'e' :: rest)
        from rfl]
      rw [parseJVal_cons,
        if_neg (by decide),
        if_pos (show List.take 4 ('t' :: ('r' :: 'u' :: 'e' :: rest)) =
          "true".data from by
            simp [List.take_succ_cons])]
      rfl
    | false =>
      show parseJVal ("false".data ++ rest) = _
      rw [show "false".data ++ rest =
        'f' :: ('a' :: 'l' :: 's' :: 'e' :: rest) from rfl]
      rw [parseJVal_cons,
        if_neg (by decide),
        if_neg (take_cons_ne (by decide)),
        if_pos (show List.take 5 ('f' :: ('a' :: 'l' :: 's' :: 'e' :: rest))
          = "false".data from by
            simp [List.take_succ_cons])]
      rfl
  | null =>
    show parseJVal ("null".data ++ rest) = _
    rw [show "null".data ++ rest = 'n' :: ('u' :: 'l' :: 'l' :: rest)
      from rfl]
    rw [parseJVal_cons,
      if_neg (by decide),
      if_neg (take_cons_ne (by decide)),
      if_neg (take_cons_ne (by decide)),
      if_pos (show List.take 4 ('n' :: ('u' :: 'l' :: 'l' :: rest)) =
        "null".data from by
          simp [List.take_succ_cons])]
    rfl
  | undef => cases hok

/-! ## C7: entry-list round trip -/

theorem parseEntries_cons (fuel : Nat) (c : Char) (l : List Char) :
    parseEntries (fuel + 1) (c :: l) =
      (if c = dquoteC then
        match parseStrBody l with
        | none => none
        | some (kcs, rest1) =>
          match rest1 with
          | ':' :: rest2 =>
            match parseJVal rest2 with
            | none => none
            | some (v, rest3) =>
              match rest3 with
              | d :: rest4 =>
                if d = ',' then
                  (parseEntries fuel rest4).map
                    (fun p => ((String.mk kcs, v) :: p.1, p.2))
                else if d = rbraceC then some ([(String.mk kcs, v)], rest4)
                else none
              | [] => none
          | _ => none
      else none) := rfl

/-- The continuation after one parsed `"key":value` entry: a comma
continues the entry list, a closing brace ends it. -/
def afterEntry (fuel : Nat) (p : String × JsVal) :
    List Char → Option (List (String × JsVal) × List Char)
  | d :: rest4 =>
      if d = ',' then
        (parseEntries fuel rest4).map (fun pr => (p :: pr.1, pr.2))
      else if d = rbraceC then some ([p], rest4)
      else none
  | [] => none

theorem parse_entry_chain (fuel : Nat) (p : String × JsVal)
    (tail : List Char) (hkey : jsonSafeStr p.1 = true)
    (hval : jvalOk p.2 = true) (htail : headNotDigit tail) :
    parseEntries (fuel + 1) (entryChars p ++ tail) =
      afterEntry fuel p tail := by
  have hsplit : entryChars p ++ tail =
      dquoteC :: (p.1.data.flatMap escChar ++ dquoteC ::
        (':' :: (jvalChars p.2 ++ tail))) := by
    unfold entryChars quotedChars
    simp [List.append_assoc]
  rw [hsplit, parseEntries_cons, if_pos rfl,
    parseStrBody_roundtrip _ (fun c hc => by
      unfold jsonSafeStr at hkey
      exact List.all_eq_true.mp hkey c hc)]
  show (match parseJVal (jvalChars p.2 ++ tail) with
    | none => none
    | some (v, rest3) =>
      match rest3 with
      | d :: rest4 =>
        if d = ',' then
          (parseEntries fuel rest4).map
            (fun pr : List (String × JsVal) × List Char =>
              ((String.mk p.1.data, v) :: pr.1, pr.2))
        else if d = rbraceC then some ([(String.mk p.1.data, v)], rest4)
        else none
      | [] => none) = _
  rw [parseJVal_roundtrip p.2 tail hval htail]
  cases tail with
  | nil => rfl
  | cons d rest4 => rfl

theorem parseEntries_roundtrip :
    ∀ (es : List (String × JsVal)) (fuel : Nat), ¬ es = [] →
    es.length ≤ fuel →
    (∀ p ∈ es, jsonSafeStr p.1 = true ∧ jvalOk p.2 = true) →
    parseEntries fuel (entriesChars es) = some (es, []) := by
  intro es
  induction es with
  | nil =>
    intro fuel hne _ _
    exact absurd rfl hne
  | cons p es ih =>
    intro fuel _ hfuel hok
    rcases fuel with _ | fuel
    · rw [List.length_cons] at hfuel
      omega
    have hkey : jsonSafeStr p.1 = true :=
      (hok p (List.mem_cons_self p es)).1
    have hval : jvalOk p.2 = true :=
      (hok p (List.mem_cons_self p es)).2
    cases es with
    | nil =>
      rw [show entriesChars [p] = entryChars p ++ [rbraceC] from rfl,
        parse_entry_chain fuel p [rbraceC] hkey hval
          (show ¬ (Char.isDigit rbraceC = true) by decide)]
      show (if (rbraceC : Char) = ',' then
          (parseEntries fuel ([] : List Char)).map
            (fun pr : List (String × JsVal) × List Char =>
              (p :: pr.1, pr.2))
        else if (rbraceC : Char) = rbraceC then
          some ([p], ([] : List Char))
        else none) = some ([p], [])
      rw [if_neg (by decide), if_pos rfl]
    | cons q es2 =>
      rw [show entriesChars (p :: q :: es2) =
        entryChars p ++ ',' :: entriesChars (q :: es2) from rfl,
        parse_entry_chain fuel p (',' :: entriesChars (q :: es2)) hkey hval
          (show ¬ (Char.isDigit ',' = true) by decide)]
      show (if (',' : Char) = ',' then
          (parseEntries fuel (entriesChars (q :: es2))).map
            (fun pr : List (String × JsVal) × List Char =>
              (p :: pr.1, pr.2))
        else if (',' : Char) = rbraceC then
          some ([p], entriesChars (q :: es2))
        else none) = some (p :: q :: es2, [])
      rw [if_pos rfl,
        ih fuel (by simp) (by simp only [List.length_cons] at hfuel ⊢; omega)
          (fun r hr => hok r (List.mem_cons_of_mem p hr))]
      rfl

/-! ## C7: stringify and parse back -/

theorem entriesChars_length_ge (es : List (String × JsVal)) :
    es.length ≤ (entriesChars es).length := by
  induction es with
  | nil => simp [entriesChars]
  | cons p es ih =>
    cases es with
    | nil => simp [entriesChars]
    | cons q es2 =>
      rw [show entriesChars (p :: q :: es2) =
        entryChars p ++ ',' :: entriesChars (q :: es2) from rfl]
      simp only [List.length_append, List.length_cons] at ih ⊢
      omega

theorem entriesChars_cons_head (p : String × JsVal)
    (es2 : List (String × JsVal)) :
    ∃ T, entriesChars (p :: es2) = dquoteC :: T := by
  cases es2 with
  | nil => exact ⟨_, rfl⟩
  | cons q es3 => exact ⟨_, rfl⟩

theorem jsonParseFlat_stringify {es : List (String × JsVal)}
    (hok : ∀ p ∈ es, jsonSafeStr p.1 = true ∧ jvalOk p.2 = true) :
    jsonParseFlat (String.mk (lbraceC :: entriesChars es)) = some es := by
  cases es with
  | nil => rfl
  | cons p es2 =>
    obtain ⟨T, hT⟩ := entriesChars_cons_head p es2
    rw [hT]
    show (if (dquoteC : Char) = rbraceC ∧ (T.isEmpty = true) then
        some ([] : List (String × JsVal))
      else
        match parseEntries (dquoteC :: T).length (dquoteC :: T) with
        | some (es, []) => some es
        | _ => none) = some (p :: es2)
    rw [if_neg (fun hc => absurd hc.1 (by decide)), ← hT,
      parseEntries_roundtrip (p :: es2) ((entriesChars (p :: es2)).length)
        (by simp) (entriesChars_length_ge _) hok]

/-- The serializable-entry predicate of the round-trip theorem: a safe
string key and a JSON-compatible primitive value. -/
def entryOk (p : String × JsVal) : Bool := jsonSafeStr p.1 && jvalOk p.2

/-- Map entries in the round-trip domain: plain string keys (safe), JSON-
compatible values. -/
def mapEntryOk (p : JsKey × JsVal) : Bool :=
  (match p.1 with
   | .str s => jsonSafeStr s
   | _ => false) && jvalOk p.2

theorem entriesOrdered_length (c : JsonCol) :
    (jsonEntriesOrdered c).length = c.store.length := by
  unfold jsonEntriesOrdered
  rw [List.length_map, jsonKeys_length]

theorem mapLookup_strMapped {l : List (String × JsVal)} {s : String} :
    mapLookup ⟨l.map (fun p => (JsKey.str p.1, p.2))⟩ (JsKey.str s) =
      lookupProp l s := by
  induction l with
  | nil => rfl
  | cons p l ih =>
    rw [List.map_cons, mapLookup_cons, lookupProp_cons]
    by_cases h : p.1 = s
    · rw [if_pos (by simp [JsKey.sameValueZero, h]), if_pos h]
    · rw [if_neg (by simp [JsKey.sameValueZero, h]), if_neg h, ih]

theorem strFold_eq (es : List (String × JsVal))
    (hnd : (es.map Prod.fst).Nodup) :
    es.foldl (fun mm p => mapSet mm (JsKey.str p.1) p.2)
      (⟨[]⟩ : MapCol) =
    ⟨es.map (fun p => (JsKey.str p.1, p.2))⟩ := by
  have hsvz : PairwiseSvz (es.map (fun p => (JsKey.str p.1, p.2))) := by
    unfold PairwiseSvz
    rw [List.pairwise_map]
    have hnd2 : es.Pairwise (fun a b => a.1 ≠ b.1) := by
      have h := hnd
      rw [show ((es.map Prod.fst).Nodup) =
          ((es.map Prod.fst).Pairwise (· ≠ ·)) from rfl,
        List.pairwise_map] at h
      exact h
    apply hnd2.imp
    intro a b hab
    show JsKey.sameValueZero (.str a.1) (.str b.1) = false
    simp [JsKey.sameValueZero]
    exact hab
  have h1 := foldMapSet_fresh hsvz
  rw [List.foldl_map] at h1
  exact h1

theorem mapRoundTrip (m : MapCol) (data : List (String × JsVal))
    (hnd : (data.map Prod.fst).Nodup)
    (hAll : ∀ p ∈ m.entries, ∃ s, p.1 = JsKey.str s ∧
      lookupProp data s = some p.2)
    (hlen : data.length = m.entries.length) :
    mapEqual m ((jsonEntriesOrdered ⟨data⟩).foldl
      (fun mm p => mapSet mm (JsKey.str p.1) p.2) ⟨[]⟩) = true := by
  rw [strFold_eq (jsonEntriesOrdered ⟨data⟩) (entriesOrdered_nodup hnd)]
  unfold mapEqual
  have hsz : mapSize ⟨(jsonEntriesOrdered ⟨data⟩).map
      (fun p => (JsKey.str p.1, p.2))⟩ = mapSize m := by
    show ((jsonEntriesOrdered ⟨data⟩).map
      (fun p => (JsKey.str p.1, p.2))).length = m.entries.length
    rw [List.length_map, entriesOrdered_length]
    exact hlen
  rw [if_neg (fun hne => hne hsz.symm)]
  apply List.all_eq_true.mpr
  intro p hp
  obtain ⟨s, hs, hlookd⟩ := hAll p hp
  have hlook : mapLookup ⟨(jsonEntriesOrdered ⟨data⟩).map
      (fun q => (JsKey.str q.1, q.2))⟩ (JsKey.str s) = some p.2 := by
    rw [mapLookup_strMapped, lookupProp_entriesOrdered]
    exact hlookd
  have hhas : mapHas ⟨(jsonEntriesOrdered ⟨data⟩).map
      (fun q => (JsKey.str q.1, q.2))⟩ p.1 = true := by
    rw [hs]
    exact mapHas_eq_true_of_some hlook
  have hget : mapGet ⟨(jsonEntriesOrdered ⟨data⟩).map
      (fun q => (JsKey.str q.1, q.2))⟩ p.1 = p.2 := by
    rw [hs]
    unfold mapGet
    rw [hlook]
    rfl
  rw [hhas, hget]
  simp

theorem mapEntryOk_key {p : JsKey × JsVal} (h : mapEntryOk p = true) :
    ∃ s, p.1 = JsKey.str s ∧ jsonSafeStr s = true ∧ jvalOk p.2 = true := by
  unfold mapEntryOk at h
  rw [Bool.and_eq_true] at h
  rcases h with ⟨h1, h2⟩
  cases hp : p.1 with
  | str s =>
    rw [hp] at h1
    exact ⟨s, rfl, h1, h2⟩
  | num n =>
    rw [hp] at h1
    cases h1
  | bool b =>
    rw [hp] at h1
    cases h1
  | null =>
    rw [hp] at h1
    cases h1
  | undef =>
    rw [hp] at h1
    cases h1
  | obj i fs =>
    rw [hp] at h1
    cases h1
  | arr i es =>
    rw [hp] at h1
    cases h1
  | fn i =>
    rw [hp] at h1
    cases h1

set_option maxHeartbeats 1600000 in
/-- C7: the persistence round trip.  `save` writes `toJSON()`; `load` with
`overwrite = true` parses the written text, clears the collection and
installs the parsed object as the whole backing content; `equal` then
accepts the reloaded collection.  For `jsonCollection` this holds for any
well-formed store of safe string keys and JSON-compatible primitive
values; for `mapCollection`, whose `toJSON` string-coerces keys, it holds
when all keys are plain strings.  The last two conjuncts isolate the
overwrite semantics: the prior content of the loaded-into collection is
irrelevant. -/
theorem claim_C7_persistence :
    (∀ (path : String) (c : JsonCol), validPath path = true → JsonWf c →
      c.store.all entryOk = true →
      ∃ content c₂, jsonSave path c = .ok content ∧
        jsonLoad path content ⟨[]⟩ true = .ok c₂ ∧
        jsonEqual c c₂ = true) ∧
    (∀ (path : String) (m : MapCol), validPath path = true → MapWf m →
      m.entries.all mapEntryOk = true →
      ∃ content m₂, mapSave path m = .ok content ∧
        mapLoad path content ⟨[]⟩ true = .ok m₂ ∧
        mapEqual m m₂ = true) ∧
    (∀ (path content : String) (c₀ : JsonCol)
        (data : List (String × JsVal)),
      validPath path = true → jsonParseFlat content = some data →
      jsonLoad path content c₀ true = .ok ⟨data⟩) ∧
    (∀ (path content : String) (m₀ : MapCol), validPath path = true →
      mapLoad path content m₀ true = mapLoad path content ⟨[]⟩ true) := by
  refine ⟨?_, ?_, ?_, ?_⟩
  · intro path c hpath hwf hok
    have hvp : ¬ ¬ validPath path = true := fun hc => hc hpath
    have hokOrd : ∀ p ∈ jsonEntriesOrdered c,
        jsonSafeStr p.1 = true ∧ jvalOk p.2 = true := by
      intro p hp
      have hps : p ∈ c.store := (jsonEntriesOrdered_perm hwf).mem_iff.mp hp
      have h := List.all_eq_true.mp hok p hps
      unfold entryOk at h
      rw [Bool.and_eq_true] at h
      exact h
    have hser : serEntries c = jsonEntriesOrdered c := by
      unfold serEntries
      apply List.filter_eq_self.mpr
      intro p hp
      have hv := (hokOrd p hp).2
      simp only [decide_eq_true_eq]
      intro hu
      rw [hu] at hv
      cases hv
    have hparse : jsonParseFlat (jsonToJSON c) =
        some (jsonEntriesOrdered c) := by
      unfold jsonToJSON
      rw [hser]
      exact jsonParseFlat_stringify hokOrd
    refine ⟨jsonToJSON c, ⟨jsonEntriesOrdered c⟩, ?_, ?_, ?_⟩
    · unfold jsonSave
      rw [if_neg hvp]
    · unfold jsonLoad
      rw [if_neg hvp, hparse]
      rfl
    · unfold jsonEqual
      have hsz : jsonSize (⟨jsonEntriesOrdered c⟩ : JsonCol) =
          jsonSize c := entriesOrdered_length c
      rw [if_neg (show ¬ ¬ jsonSize c =
          jsonSize (⟨jsonEntriesOrdered c⟩ : JsonCol) from
        fun hne => hne hsz.symm)]
      apply List.all_eq_true.mpr
      intro p hp
      have hmemstore : p ∈ c.store :=
        (jsonEntriesOrdered_perm hwf).mem_iff.mp hp
      have hkeymem : p.1 ∈ jsonKeys (⟨jsonEntriesOrdered c⟩ : JsonCol) := by
        rw [mem_jsonKeys]
        exact List.mem_map.mpr ⟨p, hp, rfl⟩
      have hhas : jsonHasStr ⟨jsonEntriesOrdered c⟩ p.1 = true := by
        unfold jsonHasStr
        rw [if_neg ?size]
        · exact contains_iff_mem_str.mpr hkeymem
        case size =>
          show ¬ (jsonEntriesOrdered c).length = 0
          intro h0
          rw [List.length_eq_zero] at h0
          rw [h0] at hp
          cases hp
      have hget : jsonGetStr ⟨jsonEntriesOrdered c⟩ p.1 = p.2 := by
        unfold jsonGetStr
        rw [if_pos (List.any_eq_true.mpr ⟨p, hp, by simp⟩)]
        show (lookupProp (jsonEntriesOrdered c) p.1).getD JsVal.undef = p.2
        rw [lookupProp_entriesOrdered, lookupProp_of_mem hwf hmemstore]
        rfl
      rw [hhas, hget]
      simp
  · intro path m hpath hwf hok
    have hvp : ¬ ¬ validPath path = true := fun hc => hc hpath
    have hkeystr : ∀ p ∈ m.entries,
        ∃ s, p.1 = JsKey.str s ∧ jsonSafeStr s = true ∧
          jvalOk p.2 = true :=
      fun p hp => mapEntryOk_key (List.all_eq_true.mp hok p hp)
    have hLfst : (m.entries.map (fun p => (p.1.toStr, p.2))).map Prod.fst =
        m.entries.map (fun p => p.1.toStr) := by
      rw [List.map_map]
      rfl
    have hLnodup : ((m.entries.map (fun p => (p.1.toStr, p.2))).map
        Prod.fst).Nodup := by
      rw [hLfst]
      show (m.entries.map (fun p => p.1.toStr)).Pairwise (· ≠ ·)
      rw [List.pairwise_map]
      apply List.Pairwise.imp_of_mem ?imp hwf
      case imp =>
        intro a b ha hb hab
        obtain ⟨s1, hs1, _, _⟩ := hkeystr a ha
        obtain ⟨s2, hs2, _, _⟩ := hkeystr b hb
        rw [hs1, hs2]
        show ¬ (s1 : String) = s2
        intro he
        rw [hs1, hs2, he, svz_refl] at hab
        cases hab
    have hfold : m.entries.foldl
        (fun st p => assignProp st p.1.toStr p.2)
        ([] : List (String × JsVal)) =
        m.entries.map (fun p => (p.1.toStr, p.2)) := by
      have h1 := foldAssign_fresh hLnodup
      rw [List.foldl_map] at h1
      exact h1
    have hwfL : JsonWf ⟨m.entries.map (fun p => (p.1.toStr, p.2))⟩ :=
      hLnodup
    have hokOrd : ∀ p ∈ jsonEntriesOrdered
        ⟨m.entries.map (fun p => (p.1.toStr, p.2))⟩,
        jsonSafeStr p.1 = true ∧ jvalOk p.2 = true := by
      intro p hp
      have hps := (jsonEntriesOrdered_perm hwfL).mem_iff.mp hp
      rcases List.mem_map.mp hps with ⟨q, hq, hqe⟩
      obtain ⟨s, hs, hsafe, hvok⟩ := hkeystr q hq
      constructor
      · rw [← hqe]
        show jsonSafeStr q.1.toStr = true
        rw [hs]
        exact hsafe
      · rw [← hqe]
        exact hvok
    have hser : serEntries ⟨m.entries.map (fun p => (p.1.toStr, p.2))⟩ =
        jsonEntriesOrdered ⟨m.entries.map (fun p => (p.1.toStr, p.2))⟩ := by
      unfold serEntries
      apply List.filter_eq_self.mpr
      intro p hp
      have hv := (hokOrd p hp).2
      simp only [decide_eq_true_eq]
      intro hu
      rw [hu] at hv
      cases hv
    have hjson : mapToJSON m = String.mk (lbraceC :: entriesChars
        (serEntries ⟨m.entries.map (fun p => (p.1.toStr, p.2))⟩)) := by
      unfold mapToJSON
      rw [hfold]
    have hparse : jsonParseFlat (mapToJSON m) = some (jsonEntriesOrdered
        ⟨m.entries.map (fun p => (p.1.toStr, p.2))⟩) := by
      rw [hjson, hser]
      exact jsonParseFlat_stringify hokOrd
    obtain ⟨D, hD⟩ : ∃ D, jsonEntriesOrdered
        ⟨m.entries.map (fun p => (p.1.toStr, p.2))⟩ = D := ⟨_, rfl⟩
    rw [hD] at hparse
    have hnd1 : (D.map Prod.fst).Nodup := by
      rw [← hD]
      exact entriesOrdered_nodup hwfL
    have hlen : D.length = m.entries.length := by
      rw [← hD, entriesOrdered_length]
      show (m.entries.map (fun p => (p.1.toStr, p.2))).length =
        m.entries.length
      rw [List.length_map]
    have hAll : ∀ p ∈ m.entries, ∃ s, p.1 = JsKey.str s ∧
        lookupProp D s = some p.2 := by
      intro p hp
      obtain ⟨s, hs, _, _⟩ := hkeystr p hp
      refine ⟨s, hs, ?_⟩
      rw [← hD, lookupProp_entriesOrdered]
      show lookupProp (m.entries.map (fun q => (q.1.toStr, q.2))) s =
        some p.2
      have hm : (p.1.toStr, p.2) ∈
          m.entries.map (fun q => (q.1.toStr, q.2)) :=
        List.mem_map.mpr ⟨p, hp, rfl⟩
      have h2 := lookupProp_of_mem hLnodup hm
      rw [hs] at h2
      exact h2
    refine ⟨mapToJSON m,
      (jsonEntriesOrdered ⟨D⟩).foldl
        (fun mm p => mapSet mm (JsKey.str p.1) p.2) ⟨[]⟩, ?_, ?_, ?_⟩
    · unfold mapSave
      rw [if_neg hvp]
    · unfold mapLoad
      rw [if_neg hvp, hparse]
      rfl
    · exact mapRoundTrip m D hnd1 hAll hlen
  · intro path content c₀ data hpath hparse
    unfold jsonLoad
    rw [if_neg (fun hc => hc hpath), hparse]
    rfl
  · intro path content m₀ hpath
    unfold mapLoad
    rw [if_neg (show ¬ ¬ validPath path = true from fun hc => hc hpath),
      if_neg (show ¬ ¬ validPath path = true from fun hc => hc hpath)]
    cases hpc : jsonParseFlat content with
    | none => rfl
    | some data => rfl

theorem witness_C7 :
    (∃ content c₂,
      jsonSave "o.json" ⟨[("a", JsVal.num 1), ("s", JsVal.str "x")]⟩ =
        .ok content ∧
      jsonLoad "o.json" content ⟨[]⟩ true = .ok c₂ ∧
      jsonEqual ⟨[("a", JsVal.num 1), ("s", JsVal.str "x")]⟩ c₂ = true) ∧
    (∃ content m₂,
      mapSave "o.json" ⟨[(JsKey.str "k", JsVal.bool true)]⟩ =
        .ok content ∧
      mapLoad "o.json" content ⟨[]⟩ true = .ok m₂ ∧
      mapEqual ⟨[(JsKey.str "k", JsVal.bool true)]⟩ m₂ = true) ∧
    jsonLoad "o.json" "\x7b\x7d" ⟨[("old", JsVal.num 9)]⟩ true =
      .ok ⟨[]⟩ :=
  ⟨claim_C7_persistence.1 "o.json"
      ⟨[("a", JsVal.num 1), ("s", JsVal.str "x")]⟩ (by decide) (by decide)
      (by decide),
   claim_C7_persistence.2.1 "o.json"
      ⟨[(JsKey.str "k", JsVal.bool true)]⟩ (by decide) (by decide)
      (by decide),
   claim_C7_persistence.2.2.1 "o.json" "\x7b\x7d"
      ⟨[("old", JsVal.num 9)]⟩ [] (by decide) (by decide)⟩

end Collection
